import Mathlib

/-!
Verification of the storage-backend core of the deepagents repository.

The TypeScript sources are shallowly embedded: strings are Lean strings
(operated on through their character lists), the JavaScript Map and the host
filesystem become explicit association-list states threaded through each
operation, and the wall clock becomes an explicit timestamp argument.
Union results of the form T-or-error-string are embedded as Except String T.
-/

set_option autoImplicit false

namespace DA

/-! ## String primitives (JavaScript string operations, embedded over char lists) -/

/-- Length of a string in characters (JS String.length for the BMP fragment used). -/
def strLen (s : String) : Nat := s.data.length

/-- Embeds JS String.startsWith. -/
def strStartsWith (s pre : String) : Bool := pre.data.isPrefixOf s.data

/-- Embeds JS String.endsWith. -/
def strEndsWith (s suf : String) : Bool := suf.data.isSuffixOf s.data

/-- Embeds JS String.slice(n): drop the first n characters. -/
def strDrop (s : String) (n : Nat) : String := String.mk (s.data.drop n)

/-- Embeds JS String.slice(0, len - n): drop the last n characters. -/
def strDropRight (s : String) (n : Nat) : String :=
  String.mk (s.data.take (s.data.length - n))

/-- Substring test over char lists (JS String.includes). -/
def isInfixL (pat : List Char) : List Char → Bool
  | [] => pat.isEmpty
  | c :: rest => pat.isPrefixOf (c :: rest) || isInfixL pat rest

/-- Embeds JS String.includes. -/
def strIncludes (s pat : String) : Bool := isInfixL pat.data s.data

/-- Whitespace characters recognised by JS String.trim (ASCII fragment). -/
def isJsSpace (c : Char) : Bool :=
  c = ' ' || c = '\t' || c = '\n' || c = '\r' || c = '\x0b' || c = '\x0c'

/-- Embeds JS String.trim (ASCII whitespace fragment). -/
def jsTrim (s : String) : String :=
  String.mk (((s.data.dropWhile isJsSpace).reverse.dropWhile isJsSpace).reverse)

/-- Splits a char list on a separator character. Mirrors JS String.split with a
one-character separator: the result is never empty, and an empty input yields
one empty piece. -/
def splitCharList (sep : Char) : List Char → List (List Char)
  | [] => [[]]
  | c :: rest =>
    let r := splitCharList sep rest
    if c = sep then [] :: r
    else
      match r with
      | [] => [[c]]
      | h :: t => (c :: h) :: t

/-- Embeds JS s.split(sep) for a one-character separator. -/
def jsSplitChar (sep : Char) (s : String) : List String :=
  (splitCharList sep s.data).map String.mk

/-- Embeds JS content.split('\n'), the line decomposition used everywhere. -/
def jsSplitNl (s : String) : List String := jsSplitChar '\n' s

/-- Embeds JS Array.prototype.join(sep) on an array of strings. -/
def jsJoinStr (sep : String) : List String → String
  | [] => ""
  | [s] => s
  | s :: r :: rest => s ++ sep ++ jsJoinStr sep (r :: rest)

/-- Embeds JS String.split with a string separator. JS splits into single
characters when the separator is empty; otherwise it cuts at each
non-overlapping occurrence, scanning left to right. Fuel bounds the scan by
the input length. -/
def jsSplitOn (s pat : String) : List String :=
  if pat.data.isEmpty then s.data.map (fun c => String.mk [c])
  else go s.data [] (s.data.length + 1)
  where go : List Char → List Char → Nat → List String
    | acc', _, 0 => [String.mk acc'.reverse]
    | [], acc, _ + 1 => [String.mk acc.reverse]
    | c :: rest, acc, fuel + 1 =>
      if pat.data.isPrefixOf (c :: rest) then
        String.mk acc.reverse :: go (List.drop pat.data.length (c :: rest)) [] fuel
      else go rest (c :: acc) fuel

/-- Embeds JS String.replace with a plain-string pattern: replaces the first
occurrence only. Fuel bounds the scan by the input length. -/
def jsReplaceFirst (s pat rep : String) : String :=
  if pat.data.isEmpty then rep ++ s
  else String.mk (go s.data (s.data.length + 1))
  where go : List Char → Nat → List Char
    | l, 0 => l
    | [], _ + 1 => []
    | c :: rest, fuel + 1 =>
      if pat.data.isPrefixOf (c :: rest) then
        rep.data ++ List.drop pat.data.length (c :: rest)
      else c :: go rest fuel

/-- Embeds JS String.padStart(width) with the default space padding. -/
def padStart (w : Nat) (s : String) : String :=
  String.mk (List.replicate (w - s.data.length) ' ') ++ s

/-- Lexicographic comparison of char lists, used to embed localeCompare on the
ASCII paths and ISO timestamps occurring in this development. -/
def lexLe : List Char → List Char → Bool
  | [], _ => true
  | _ :: _, [] => false
  | a :: as, b :: bs => if a < b then true else if b < a then false else lexLe as bs

/-- Embeds a.localeCompare(b) less-or-equal outcome for ASCII strings. -/
def strLe (a b : String) : Bool := lexLe a.data b.data

/-- Interprets the digits of a fixed-format ISO-8601 timestamp as a number.
Embeds new Date(s).getTime() up to monotone equivalence: on the fixed-width
timestamps produced in this development, digit order agrees with time order,
and the empty string maps to 0 exactly as new Date(0) does in the source's
fallback. -/
def isoTimeKey (s : String) : Nat :=
  s.data.foldl (fun n c => if c.isDigit then n * 10 + (c.toNat - 48) else n) 0

/-! ## Stable insertion sort (embeds the stable JS Array.prototype.sort) -/

/-- Inserts an element into a sorted list, before the first element it is
le-related to. With a non-strict le this is the stable placement used by
JS Array.prototype.sort. -/
def insertLe {α : Type} (le : α → α → Bool) (a : α) : List α → List α
  | [] => [a]
  | b :: l => if le a b then a :: b :: l else b :: insertLe le a l

/-- Stable insertion sort; embeds JS Array.prototype.sort with comparator le. -/
def insSort {α : Type} (le : α → α → Bool) : List α → List α
  | [] => []
  | a :: l => insertLe le a (insSort le l)

theorem mem_insertLe {α : Type} (le : α → α → Bool) (a x : α) (l : List α) :
    x ∈ insertLe le a l ↔ x = a ∨ x ∈ l := by
  induction l with
  | nil => simp [insertLe]
  | cons b t ih =>
    by_cases h : le a b = true
    · simp [insertLe, h]
    · simp only [insertLe, h]
      simp only [Bool.false_eq_true, if_false, List.mem_cons, ih]
      tauto

theorem mem_insSort {α : Type} (le : α → α → Bool) (x : α) (l : List α) :
    x ∈ insSort le l ↔ x ∈ l := by
  induction l with
  | nil => simp [insSort]
  | cons a t ih => simp [insSort, mem_insertLe, ih]

theorem pairwise_insertLe {α : Type} (le : α → α → Bool)
    (total : ∀ a b, le a b = true ∨ le b a = true)
    (trans : ∀ a b c, le a b = true → le b c = true → le a c = true)
    (a : α) (l : List α)
    (h : l.Pairwise (fun x y => le x y = true)) :
    (insertLe le a l).Pairwise (fun x y => le x y = true) := by
  induction l with
  | nil => simp [insertLe]
  | cons b t ih =>
    rcases h with _ | ⟨hb, ht⟩
    by_cases hab : le a b = true
    · simp only [insertLe, hab, if_true]
      refine List.Pairwise.cons ?_ (List.Pairwise.cons hb ht)
      intro x hx
      rcases List.mem_cons.mp hx with rfl | hx
      · exact hab
      · exact trans a b x hab (hb x hx)
    · simp only [insertLe, hab, Bool.false_eq_true, if_false]
      refine List.Pairwise.cons ?_ (ih ht)
      intro x hx
      rw [mem_insertLe] at hx
      rcases hx with rfl | hx
      · rcases total x b with h' | h'
        · exact absurd h' hab
        · exact h'
      · exact hb x hx

theorem pairwise_insSort {α : Type} (le : α → α → Bool)
    (total : ∀ a b, le a b = true ∨ le b a = true)
    (trans : ∀ a b c, le a b = true → le b c = true → le a c = true) (l : List α) :
    (insSort le l).Pairwise (fun x y => le x y = true) := by
  induction l with
  | nil => simp [insSort]
  | cons a t ih => exact pairwise_insertLe le total trans a _ ih

/-! ## Host-library models: ECMAScript RegExp and the minimatch glob library -/

/-- Scans a regular-expression pattern tracking whether the position is inside
a character class; a pattern is syntactically valid when every class opened by
an unescaped bracket is terminated and no escape dangles at the end. Models
the ECMAScript RegExp syntax check for the fragment exercised here (literal
patterns and the unterminated-character-class error of patterns such as
the string consisting of a bracket followed by letters). -/
def regexScan : List Char → Bool → Bool → Bool
  | [], inClass, esc => !inClass && !esc
  | _ :: rest, inClass, true => regexScan rest inClass false
  | c :: rest, inClass, false =>
    if c = '\\' then regexScan rest inClass true
    else if c = '[' && !inClass then regexScan rest true false
    else if c = ']' && inClass then regexScan rest false false
    else regexScan rest inClass false

/-- Models the message of the SyntaxError thrown by new RegExp on the invalid
patterns exercised in this development. -/
def regexErrMsg (pattern : String) : String :=
  "Invalid regular expression: /" ++ pattern ++ "/: Unterminated character class"

/-- Models new RegExp(pattern) as a syntax check: none on success, the thrown
error message on failure. -/
def jsRegexCheck (pattern : String) : Option String :=
  if regexScan pattern.data false false then none else some (regexErrMsg pattern)

/-- Models regex.test(line) for the literal patterns (no metacharacters) that
the verified properties exercise: a literal pattern matches a line exactly
when it occurs as a substring. -/
def jsRegexTest (pattern line : String) : Bool := isInfixL pattern.data line.data

/-- Matches one glob segment against one name segment. Star matches any run of
characters within the segment, question mark one character; other characters
match literally. Models minimatch segment matching for the patterns used here
(no brace, extglob or globstar forms). -/
def globSegMatchF : Nat → List Char → List Char → Bool
  | 0, _, _ => false
  | fuel + 1, p, n =>
    match p, n with
    | [], [] => true
    | '*' :: ps, [] => globSegMatchF fuel ps []
    | '*' :: ps, c :: ns => globSegMatchF fuel ps (c :: ns) || globSegMatchF fuel ('*' :: ps) ns
    | '?' :: ps, _ :: ns => globSegMatchF fuel ps ns
    | _ :: _, [] => false
    | pc :: ps, c :: ns => pc = c && globSegMatchF fuel ps ns
    | [], _ :: _ => false

def globSegMatch (p n : List Char) : Bool := globSegMatchF (p.length + n.length + 1) p n

/-- Refuses a leading wildcard against a leading dot, as minimatch does when
the dot option is off. -/
def globDotOk (dot : Bool) (p n : List Char) : Bool :=
  dot ||
    match p, n with
    | '*' :: _, '.' :: _ => false
    | '?' :: _, '.' :: _ => false
    | _, _ => true

/-- Models minimatch(name, pattern, options): both are split on slashes and
matched segment by segment. Covers the fragment used in this repository:
patterns without globstar, braces or extglobs, with an optional dot flag. -/
def minimatchB (name pattern : String) (dot : Bool) : Bool :=
  let nsegs := splitCharList '/' name.data
  let psegs := splitCharList '/' pattern.data
  nsegs.length = psegs.length &&
    (List.zip psegs nsegs).all fun pn =>
      globDotOk dot pn.1 pn.2 && globSegMatch pn.1 pn.2

/-! ## Constants (src/packages/deepagents/src/utils/constants.ts) -/

/-- Sentinel returned for files that exist with empty contents. -/
def EMPTY_CONTENT_WARNING : String := "System reminder: File exists but has empty contents"

/-- Maximum rendered line length before continuation chunking. -/
def MAX_LINE_LENGTH : Nat := 10000

/-- Fixed line-number column width of read responses. -/
def LINE_NUMBER_WIDTH : Nat := 6

/-! ## Formatting utilities (src/packages/deepagents/src/utils/formatting.ts) -/

/-- Renders the numbered output lines for one content line: a single padded
number and tab for short lines, and decimal continuation markers for lines
longer than MAX_LINE_LENGTH. Embeds the per-line body of
formatContentWithLineNumbers. -/
def formatOneLine (lineNum : Nat) (line : String) : List String :=
  if line.data.length ≤ MAX_LINE_LENGTH then
    [padStart LINE_NUMBER_WIDTH (toString lineNum) ++ "\t" ++ line]
  else
    let numChunks := (line.data.length + MAX_LINE_LENGTH - 1) / MAX_LINE_LENGTH
    (List.range numChunks).map fun chunkIdx =>
      let chunk := String.mk ((line.data.drop (chunkIdx * MAX_LINE_LENGTH)).take MAX_LINE_LENGTH)
      if chunkIdx = 0 then
        padStart LINE_NUMBER_WIDTH (toString lineNum) ++ "\t" ++ chunk
      else
        padStart LINE_NUMBER_WIDTH (toString lineNum ++ "." ++ toString chunkIdx) ++ "\t" ++ chunk

/-- Embeds formatContentWithLineNumbers on an array of lines (the overload the
backends call): each line is numbered starting from startLine and the result
lines are joined with newlines. -/
def formatContentWithLineNumbers (lines : List String) (startLine : Nat) : String :=
  jsJoinStr "\n" ((lines.enum.map fun p => formatOneLine (p.1 + startLine) p.2).flatten)

/-- Embeds checkEmptyContent: the sentinel for empty or whitespace-only
content, none otherwise. -/
def checkEmptyContent (content : String) : Option String :=
  if content.data.isEmpty || (jsTrim content).data.isEmpty then some EMPTY_CONTENT_WARNING
  else none

/-! ## String replacement (src/packages/deepagents/src/utils/string-replacement.ts) -/

/-- Success value of performStringReplacement. -/
structure ReplacementResult where
  newContent : String
  occurrences : Nat
  deriving DecidableEq, Repr

/-- Embeds the indexOf-advancing counting loop of performStringReplacement.
The source loops forever when oldString is empty (indexOf keeps returning the
same position); the embedding is restricted to nonempty oldString and returns
0 on an empty one. Fuel bounds the scan by the content length. -/
def countOccurrences (content oldString : String) : Nat :=
  if oldString.data.isEmpty then 0
  else go content.data (content.data.length + 1)
  where go : List Char → Nat → Nat
    | _, 0 => 0
    | [], _ + 1 => 0
    | c :: rest, fuel + 1 =>
      if oldString.data.isPrefixOf (c :: rest) then
        1 + go (List.drop oldString.data.length (c :: rest)) fuel
      else go rest fuel

/-- Embeds performStringReplacement: counts occurrences, rejects a missing or
ambiguous old string, and otherwise replaces the first occurrence or, with
replaceAll, every occurrence via split and join. -/
def performStringReplacement (content oldString newString : String)
    (replaceAll : Bool) : Except String ReplacementResult :=
  let occurrences := countOccurrences content oldString
  if occurrences = 0 then
    .error ("Error: String not found in file: '" ++ oldString ++ "'")
  else if occurrences > 1 && !replaceAll then
    .error ("Error: String '" ++ oldString ++ "' appears " ++ toString occurrences ++
      " times in file. Use replace_all=true to replace all instances, or provide a more specific string with surrounding context.")
  else
    let newContent :=
      if replaceAll then jsJoinStr newString (jsSplitOn content oldString)
      else jsReplaceFirst content oldString newString
    .ok ⟨newContent, occurrences⟩

/-! ## File data (src/packages/deepagents/src/utils/file-data.ts) -/

/-- Content unit of the in-memory and persistent backends: lines plus
timestamps. -/
structure FileData where
  content : List String
  created_at : String
  modified_at : String
  deriving DecidableEq, Repr

/-- Embeds fileDataToString. -/
def fileDataToString (fd : FileData) : String := jsJoinStr "\n" fd.content

/-- Embeds createFileData; the wall clock is passed explicitly as now. -/
def createFileData (now content : String) : FileData :=
  ⟨jsSplitNl content, now, now⟩

/-- Embeds updateFileData: new content, preserved creation timestamp. -/
def updateFileData (now : String) (fd : FileData) (content : String) : FileData :=
  ⟨jsSplitNl content, fd.created_at, now⟩

/-- Embeds formatReadResponse: the empty sentinel, the out-of-range error, or
the numbered rendering of the requested line window. -/
def formatReadResponse (fd : FileData) (offset limit : Nat) : String :=
  let content := fileDataToString fd
  match checkEmptyContent content with
  | some msg => msg
  | none =>
    let lines := jsSplitNl content
    let startIdx := offset
    let endIdx := min (startIdx + limit) lines.length
    if lines.length ≤ startIdx then
      "Error: Line offset " ++ toString offset ++ " exceeds file length (" ++
        toString lines.length ++ " lines)"
    else
      formatContentWithLineNumbers ((lines.drop startIdx).take (endIdx - startIdx)) (startIdx + 1)

/-! ## Shared result types (src/packages/deepagents/src/types/backend.ts) -/

/-- Read-only listing entry produced by listing and name search. -/
structure FileInfo where
  path : String
  is_dir : Bool
  size : Nat
  modified_at : String
  deriving DecidableEq, Repr

/-- Content-search match: path, 1-indexed line, line text. -/
structure GrepMatch where
  path : String
  line : Nat
  text : String
  deriving DecidableEq, Repr

/-- State of the in-memory backend: the insertion-ordered path-to-record map
(JS Map), embedded as an association list without duplicate keys. -/
abbrev Files := List (String × FileData)

/-- Embeds Map.get. -/
def filesGet (files : Files) (k : String) : Option FileData :=
  match files with
  | [] => none
  | (k', v) :: rest => if k' = k then some v else filesGet rest k

/-- Embeds Map.has. -/
def filesHas (files : Files) (k : String) : Bool := (filesGet files k).isSome

/-- Embeds Map.set: updates in place on an existing key, appends otherwise. -/
def filesSet (files : Files) (k : String) (v : FileData) : Files :=
  match files with
  | [] => [(k, v)]
  | (k', v') :: rest => if k' = k then (k, v) :: rest else (k', v') :: filesSet rest k v

/-- Success value of a write. filesUpdate carries the externally-merged state
delta of the in-memory backend and is none for backends that persist
directly. -/
structure WriteOk where
  path : String
  filesUpdate : Option Files
  deriving DecidableEq, Repr

instance {ε α : Type} [DecidableEq ε] [DecidableEq α] : DecidableEq (Except ε α) := fun x y =>
  match x, y with
  | .error a, .error b =>
    if h : a = b then .isTrue (by rw [h]) else .isFalse (by intro he; cases he; exact h rfl)
  | .ok a, .ok b =>
    if h : a = b then .isTrue (by rw [h]) else .isFalse (by intro he; cases he; exact h rfl)
  | .error _, .ok _ => .isFalse (by intro h; cases h)
  | .ok _, .error _ => .isFalse (by intro h; cases h)

/-- Embeds WriteResult: the success record or the error string. -/
abbrev WriteResult := Except String WriteOk

/-- Success value of an edit, including the replacement count. -/
structure EditOk where
  path : String
  filesUpdate : Option Files
  occurrences : Nat
  deriving DecidableEq, Repr

/-- Embeds EditResult: the success record or the error string. -/
abbrev EditResult := Except String EditOk

/-! ## Path validation (src/packages/deepagents/src/utils/path-validation.ts) -/

/-- Embeds validatePath: falsy paths default to the root, blank paths throw,
and the result is normalized to start and end with a slash. -/
def validatePath (path : Option String) : Except String String :=
  let effectivePath := match path with | none => "/" | some p => if p = "" then "/" else p
  if effectivePath = "" || (jsTrim effectivePath).data.isEmpty then
    .error "Path cannot be empty"
  else
    let normalized :=
      if strStartsWith effectivePath "/" then effectivePath else "/" ++ effectivePath
    .ok (if strEndsWith normalized "/" then normalized else normalized ++ "/")

/-! ## Grep utilities (src/packages/deepagents/src/utils/grep.ts) -/

/-- Last path segment of a slash-separated path (fp.split('/').pop()). -/
def lastSeg (fp : String) : String :=
  match (splitCharList '/' fp.data).getLast? with
  | some l => String.mk l
  | none => ""

/-- Line scan of one file: 1-indexed matches of the pattern in its lines. -/
def grepFileMatches (pattern : String) (fp : String) (fd : FileData) : List GrepMatch :=
  (fd.content.enum.filterMap fun p =>
    if jsRegexTest pattern p.2 then some ⟨fp, p.1 + 1, p.2⟩ else none)

/-- Embeds grepMatchesFromFiles: regex validation, path validation (failures
yield an empty result), path and glob filtering, then a line scan in map
order. -/
def grepMatchesFromFiles (files : Files) (pattern : String)
    (path glob : Option String) : Except String (List GrepMatch) :=
  match jsRegexCheck pattern with
  | some emsg => .error ("Invalid regex pattern: " ++ emsg)
  | none =>
    match validatePath path with
    | .error _ => .ok []
    | .ok normalizedPath =>
      let filtered := files.filter fun e => strStartsWith e.1 normalizedPath
      let filtered :=
        match glob with
        | some g =>
          if g = "" then filtered
          else filtered.filter fun e => minimatchB (lastSeg e.1) g false
        | none => filtered
      .ok ((filtered.map fun e => grepFileMatches pattern e.1 e.2).flatten)

/-- Embeds globSearchFiles: path-validated prefix filtering, glob matching of
the relative path with the dot option, then a stable sort of the matching
(path, mtime) pairs by modification time, most recent first. -/
def globSearchFiles (files : Files) (pattern : String) (path : String) : List String :=
  match validatePath (some path) with
  | .error _ => []
  | .ok normalizedPath =>
    let filtered := files.filter fun e => strStartsWith e.1 normalizedPath
    let matched := filtered.filterMap fun e =>
      let relative0 := strDrop e.1 normalizedPath.data.length
      let relative := if strStartsWith relative0 "/" then strDrop relative0 1 else relative0
      if relative = "" then none
      else if minimatchB relative pattern true then some (e.1, e.2.modified_at)
      else none
    (insSort (fun a b => strLe b.2 a.2) matched).map Prod.fst

/-! ## In-memory backend (src/packages/deepagents/src/backends/state-backend.ts) -/

/-- Embeds StateBackend.ls_info: files directly under the directory in map
order, synthetic subdirectory entries from deeper paths, all sorted by path. -/
def stateLsInfo (files : Files) (path : String) : List FileInfo :=
  let normalizedPath := if strEndsWith path "/" then path else path ++ "/"
  let fileInfos := files.filterMap fun e =>
    if !strStartsWith e.1 normalizedPath then none
    else
      let relative := strDrop e.1 normalizedPath.data.length
      if relative.data.contains '/' then none
      else
        some (⟨e.1, false, (jsJoinStr "\n" e.2.content).data.length, e.2.modified_at⟩ : FileInfo)
  let subdirNames := (files.filterMap fun e =>
    if !strStartsWith e.1 normalizedPath then none
    else
      let relative := strDrop e.1 normalizedPath.data.length
      if !relative.data.contains '/' then none
      else
        let subdirName := String.mk (relative.data.takeWhile (· ≠ '/'))
        if subdirName = "" then none
        else some (normalizedPath ++ subdirName ++ "/")).dedup
  let dirInfos := (insSort (fun a b => strLe a b) subdirNames).map
    fun d => (⟨d, true, 0, ""⟩ : FileInfo)
  insSort (fun a b => strLe a.path b.path) (fileInfos ++ dirInfos)

/-- Embeds StateBackend.read. -/
def stateRead (files : Files) (file_path : String) (offset limit : Nat) : String :=
  match filesGet files file_path with
  | none => "Error: File '" ++ file_path ++ "' not found"
  | some fd => formatReadResponse fd offset limit

/-- Embeds StateBackend.write; returns the result together with the updated
map. -/
def stateWrite (now : String) (files : Files) (file_path content : String) :
    WriteResult × Files :=
  if filesHas files file_path then
    (.error ("Cannot write to " ++ file_path ++
      " because it already exists. Read and then make an edit, or write to a new path."), files)
  else
    let newFileData := createFileData now content
    (.ok ⟨file_path, some [(file_path, newFileData)]⟩, filesSet files file_path newFileData)

/-- Embeds StateBackend.edit; returns the result together with the updated
map. -/
def stateEdit (now : String) (files : Files) (file_path old_string new_string : String)
    (replace_all : Bool) : EditResult × Files :=
  match filesGet files file_path with
  | none => (.error ("Error: File '" ++ file_path ++ "' not found"), files)
  | some fileData =>
    let content := fileDataToString fileData
    match performStringReplacement content old_string new_string replace_all with
    | .error msg => (.error msg, files)
    | .ok result =>
      let newFileData := updateFileData now fileData result.newContent
      (.ok ⟨file_path, some [(file_path, newFileData)], result.occurrences⟩,
        filesSet files file_path newFileData)

/-- Embeds StateBackend.grep_raw (delegates to grepMatchesFromFiles). -/
def stateGrepRaw (files : Files) (pattern : String) (path glob : Option String) :
    Except String (List GrepMatch) :=
  grepMatchesFromFiles files pattern path glob

/-- Embeds StateBackend.glob_info: FileInfo records for the matched paths in
their mtime-sorted order. -/
def stateGlobInfo (files : Files) (pattern : String) (path : String) : List FileInfo :=
  let matchedPaths := globSearchFiles files pattern path
  matchedPaths.filterMap fun fp =>
    (filesGet files fp).map fun fd =>
      ⟨fp, false, (jsJoinStr "\n" fd.content).data.length, fd.modified_at⟩

/-! ## Host filesystem model

The real filesystem is modelled as a finite map from absolute normalized
paths to file records (content, mtime) plus a list of explicitly created
directories; a path is a directory when it was created or when an entry lives
below it, and the filesystem root always exists. Directory modification
times are modelled as the empty string (no verified property reads them).
-/

/-- One regular file of the modelled filesystem. -/
structure FsFile where
  content : String
  mtime : String
  deriving DecidableEq, Repr

/-- Modelled filesystem state. -/
structure Fs where
  files : List (String × FsFile)
  dirs : List String
  deriving DecidableEq, Repr

/-- Assoc-list lookup of a file record. -/
def lookupFile : List (String × FsFile) → String → Option FsFile
  | [], _ => none
  | (k, v) :: rest, p => if k = p then some v else lookupFile rest p

/-- Looks up a regular file. -/
def fsGetFile (fs : Fs) (p : String) : Option FsFile := lookupFile fs.files p

/-- Stat: is the path a regular file. -/
def fsIsFile (fs : Fs) (p : String) : Bool := (fsGetFile fs p).isSome

/-- Stat: is the path a directory (the root, an explicitly created directory,
or an implied ancestor of an existing entry). -/
def fsIsDir (fs : Fs) (p : String) : Bool :=
  p = "/" || fs.dirs.contains p ||
    fs.files.any (fun e => strStartsWith e.1 (p ++ "/")) ||
    fs.dirs.any (fun d => strStartsWith d (p ++ "/"))

/-- Models fs.access / fs.existsSync. -/
def fsExists (fs : Fs) (p : String) : Bool := fsIsFile fs p || fsIsDir fs p

/-- Models fs.writeFile: creates or replaces the file, stamping the modelled
clock as its mtime. -/
def fsWriteFile (fs : Fs) (p content now : String) : Fs :=
  ⟨go fs.files, fs.dirs⟩
  where go : List (String × FsFile) → List (String × FsFile)
    | [] => [(p, ⟨content, now⟩)]
    | (k, v) :: rest => if k = p then (p, ⟨content, now⟩) :: rest else (k, v) :: go rest

/-- Splits a path into slash-separated segments. -/
def splitSegs (s : String) : List String := (splitCharList '/' s.data).map String.mk

/-- Resolution of segments: empty and dot segments vanish, dot-dot pops.
Mirrors Node's path normalization for absolute paths. -/
def normalizeSegs (segs : List String) : List String :=
  segs.foldl
    (fun acc seg =>
      if seg = "" || seg = "." then acc
      else if seg = ".." then acc.dropLast
      else acc ++ [seg])
    []

/-- Models Node path.resolve(cwd, rel) for a normalized absolute cwd. -/
def jsPathResolve (cwd rel : String) : String :=
  let combined := if strStartsWith rel "/" then rel else cwd ++ "/" ++ rel
  "/" ++ jsJoinStr "/" (normalizeSegs (splitSegs combined))

/-- Models Node path.dirname on normalized absolute paths. -/
def pathDirname (p : String) : String :=
  let segs := splitCharList '/' p.data
  if segs.length ≤ 2 then "/"
  else "/" ++ jsJoinStr "/" ((segs.dropLast.map String.mk).drop 1)

/-- Models Node path.join on a normalized absolute base and a relative tail. -/
def pathJoin2 (a b : String) : String :=
  if b = "" then a else if a = "/" then "/" ++ b else a ++ "/" ++ b

/-- Chain of a directory and its proper ancestors up to the root. -/
def dirChain : Nat → String → List String
  | 0, _ => []
  | fuel + 1, d => if d = "/" || d = "" then [] else d :: dirChain fuel (pathDirname d)

/-- Models fs.mkdir(recursive: true). -/
def fsMkdirp (fs : Fs) (d : String) : Fs :=
  ⟨fs.files, (fs.dirs ++ dirChain (d.data.length + 1) d).dedup⟩

/-- Models path.relative(base, target) for a target lying under base, the only
shape reached in virtual mode. -/
def pathRelativeUnder (base target : String) : String :=
  if target = base then ""
  else if strStartsWith target (base ++ "/") then strDrop target (base.data.length + 1)
  else target

/-- Immediate child of directory p on the way to existing path k: its name and
whether k lies strictly deeper (making the child a directory). -/
def childNameOf (p k : String) : Option (String × Bool) :=
  let pre := if p = "/" then "/" else p ++ "/"
  if strStartsWith k pre && k ≠ p then
    let rest := strDrop k pre.data.length
    let seg := String.mk (rest.data.takeWhile (· ≠ '/'))
    if seg = "" then none else some (seg, rest.data.contains '/')
  else none

/-- Models fs.readdir(withFileTypes): the immediate children of a directory as
(name, is-directory) pairs. The host's enumeration order is unspecified;
it is modelled as name-sorted, and every verified property is insensitive to
it (listings re-sort, searches only aggregate). -/
def fsReaddir (fs : Fs) (p : String) : List (String × Bool) :=
  let fromFiles := fs.files.filterMap fun e => childNameOf p e.1
  let fromDirs := fs.dirs.filterMap fun d => (childNameOf p d).map fun n => (n.1, true)
  insSort (fun a b => strLe a.1 b.1) (fromFiles ++ fromDirs).dedup

/-! ## Disk backend (FilesystemBackend) -/

/-- Configuration of the disk backend: resolved root, sandbox flag, size
limit in bytes. -/
structure FsConfig where
  cwd : String
  virtualMode : Bool
  maxFileSizeBytes : Nat
  deriving DecidableEq, Repr

/-- Embeds FilesystemBackend.resolvePath. In virtual mode the incoming path
is made absolute, rejected when it contains a dot-dot substring or starts
with a tilde (a check on the already-slash-prepended string), resolved under
the root and verified to stay inside it; otherwise absolute paths pass
through and relative paths resolve under the root. Thrown errors become the
error branch. -/
def resolvePath (cfg : FsConfig) (key : String) : Except String String :=
  if cfg.virtualMode then
    let vpath := if strStartsWith key "/" then key else "/" ++ key
    if strIncludes vpath ".." || strStartsWith vpath "~" then
      .error "Path traversal not allowed"
    else
      let full := jsPathResolve cfg.cwd (strDrop vpath 1)
      if !strStartsWith full cfg.cwd then
        .error ("Path: " ++ full ++ " outside root directory: " ++ cfg.cwd)
      else .ok full
  else if strStartsWith key "/" then .ok key
  else .ok (jsPathResolve cfg.cwd key)

/-- Embeds FilesystemBackend.toVirtualPath. -/
def toVirtualPath (cfg : FsConfig) (absolutePath : String) : String :=
  if !cfg.virtualMode then absolutePath
  else "/" ++ pathRelativeUnder cfg.cwd absolutePath

/-- Embeds FilesystemBackend.ls_info: empty on resolution failure or a
non-directory, otherwise stat-backed entries for the directory's children,
sorted by path. -/
def fsLsInfo (cfg : FsConfig) (fs : Fs) (dirPath : String) : List FileInfo :=
  match resolvePath cfg dirPath with
  | .error _ => []
  | .ok resolvedPath =>
    if !fsIsDir fs resolvedPath || fsIsFile fs resolvedPath then []
    else
      let results := (fsReaddir fs resolvedPath).filterMap fun entry =>
        let fullPath := pathJoin2 resolvedPath entry.1
        let entryPath := if cfg.virtualMode then toVirtualPath cfg fullPath else fullPath
        if entry.2 then
          some (⟨entryPath ++ "/", true, 0, ""⟩ : FileInfo)
        else
          (fsGetFile fs fullPath).map fun f =>
            (⟨entryPath, false, f.content.data.length, f.mtime⟩ : FileInfo)
      insSort (fun a b => strLe a.path b.path) results

/-- Embeds FilesystemBackend.read: resolution errors surface through the
catch-all message, a missing or non-regular path reports not found, then the
empty sentinel, the out-of-range check and the numbered window as in the
source. -/
def fsRead (cfg : FsConfig) (fs : Fs) (file_path : String) (offset limit : Nat) : String :=
  match resolvePath cfg file_path with
  | .error e => "Error reading file '" ++ file_path ++ "': " ++ e
  | .ok resolvedPath =>
    match fsGetFile fs resolvedPath with
    | none => "Error: File '" ++ file_path ++ "' not found"
    | some f =>
      match checkEmptyContent f.content with
      | some msg => msg
      | none =>
        let lines := jsSplitNl f.content
        let startIdx := offset
        let endIdx := min (startIdx + limit) lines.length
        if lines.length ≤ startIdx then
          "Error: Line offset " ++ toString offset ++ " exceeds file length (" ++
            toString lines.length ++ " lines)"
        else
          formatContentWithLineNumbers ((lines.drop startIdx).take (endIdx - startIdx))
            (startIdx + 1)

/-- Embeds FilesystemBackend.write: resolution errors surface through the
catch-all message, an existing path is refused, otherwise parent directories
are created and the file written. -/
def fsWrite (cfg : FsConfig) (now : String) (fs : Fs) (file_path content : String) :
    WriteResult × Fs :=
  match resolvePath cfg file_path with
  | .error e => (.error ("Error writing file '" ++ file_path ++ "': " ++ e), fs)
  | .ok resolvedPath =>
    if fsExists fs resolvedPath then
      (.error ("Cannot write to " ++ file_path ++
        " because it already exists. Read and then make an edit, or write to a new path."), fs)
    else
      let fs1 := fsMkdirp fs (pathDirname resolvedPath)
      (.ok ⟨file_path, none⟩, fsWriteFile fs1 resolvedPath content now)

/-- Embeds FilesystemBackend.edit: resolution errors surface through the
catch-all message, a missing or non-regular path reports not found, then the
shared replacement routine decides, and success rewrites the file. -/
def fsEdit (cfg : FsConfig) (now : String) (fs : Fs)
    (file_path old_string new_string : String) (replace_all : Bool) : EditResult × Fs :=
  match resolvePath cfg file_path with
  | .error e => (.error ("Error editing file '" ++ file_path ++ "': " ++ e), fs)
  | .ok resolvedPath =>
    match fsGetFile fs resolvedPath with
    | none => (.error ("Error: File '" ++ file_path ++ "' not found"), fs)
    | some f =>
      match performStringReplacement f.content old_string new_string replace_all with
      | .error msg => (.error msg, fs)
      | .ok result =>
        (.ok ⟨file_path, none, result.occurrences⟩,
          fsWriteFile fs resolvedPath result.newContent now)

/-- Regular files lying strictly below a directory, in path order. The
source's recursive directory walk visits exactly these; enumeration order is
modelled as path-sorted (see fsReaddir). -/
def fsFilesUnder (fs : Fs) (base : String) : List (String × FsFile) :=
  insSort (fun a b => strLe a.1 b.1)
    (fs.files.filter fun e => strStartsWith e.1 (if base = "/" then "/" else base ++ "/"))

/-- Embeds FilesystemBackend.grep_raw. The regex is validated first; a failing
resolution or a missing base yields an empty success. The external ripgrep
invocation is environment-dependent and is modelled as unavailable, so the
search is the specified-identical in-process fallback: a recursive walk with
per-file name-glob and size filters, skipping empty lines, collecting
1-indexed matches. -/
def fsGrepRaw (cfg : FsConfig) (fs : Fs) (pattern : String)
    (searchPath glob : Option String) : Except String (List GrepMatch) :=
  match jsRegexCheck pattern with
  | some emsg => .error ("Invalid regex pattern: " ++ emsg)
  | none =>
    let sp := match searchPath with | none => "." | some s => if s = "" then "." else s
    match resolvePath cfg sp with
    | .error _ => .ok []
    | .ok basePath =>
      if !fsExists fs basePath then .ok []
      else if !fsIsDir fs basePath || fsIsFile fs basePath then .ok []
      else
        let candidates := (fsFilesUnder fs basePath).filter fun e =>
          (match glob with
            | some g => if g = "" then true else minimatchB (lastSeg e.1) g false
            | none => true) &&
          e.2.content.data.length ≤ cfg.maxFileSizeBytes
        .ok ((candidates.map fun e =>
          let filePath := if cfg.virtualMode then toVirtualPath cfg e.1 else e.1
          (jsSplitNl e.2.content).enum.filterMap fun p =>
            if p.2 ≠ "" && jsRegexTest pattern p.2 then some (⟨filePath, p.1 + 1, p.2⟩ : GrepMatch)
            else none).flatten)

/-- Embeds FilesystemBackend.glob_info. The base resolution happens outside
any try block, so a traversal rejection propagates as a thrown error (the
error branch); a missing or non-directory base yields an empty success;
otherwise the walk collects files whose base-relative path matches the
pattern (dot option on), stat-backed, sorted by path. -/
def fsGlobInfo (cfg : FsConfig) (fs : Fs) (pattern : String) (searchPath : String) :
    Except String (List FileInfo) :=
  let cleanPattern := if strStartsWith pattern "/" then strDrop pattern 1 else pattern
  let basePathE := if searchPath = "/" then .ok cfg.cwd else resolvePath cfg searchPath
  match basePathE with
  | .error e => .error e
  | .ok basePath =>
    if !fsIsDir fs basePath || fsIsFile fs basePath then .ok []
    else
      let results := (fsFilesUnder fs basePath).filterMap fun e =>
        let relativePath := pathRelativeUnder basePath e.1
        if minimatchB relativePath cleanPattern true then
          let displayPath := if cfg.virtualMode then toVirtualPath cfg e.1 else e.1
          some (⟨displayPath, false, e.2.content.data.length, e.2.mtime⟩ : FileInfo)
        else none
      .ok (insSort (fun a b => strLe a.path b.path) results)

/-! ## Persistent namespaced backend (StoreBackend, src/unnamed/part_005)

The store's slice of the host filesystem is modelled like Fs, with the
metadata sidecars kept in a separate structured map (the source serialises
them as JSON next to the file; serialisation is invertible, so the pair is
modelled directly). File records carry birth and modification stat times for
the metadata fallback.
-/

/-- One stored regular file with its stat times. -/
structure StoreFile where
  content : String
  btime : String
  mtime : String
  deriving DecidableEq, Repr

/-- Modelled store state: the namespace directory this backend resolved at
construction, plus its filesystem slice. -/
structure StoreState where
  namespaceDir : String
  files : List (String × StoreFile)
  metas : List (String × (String × String))
  dirs : List String
  deriving DecidableEq, Repr

/-- Generic assoc-list lookup keyed by path. -/
def alookup {β : Type} : List (String × β) → String → Option β
  | [], _ => none
  | (k, v) :: rest, p => if k = p then some v else alookup rest p

/-- Generic assoc-list update-or-append keyed by path. -/
def aset {β : Type} : List (String × β) → String → β → List (String × β)
  | [], p, v => [(p, v)]
  | (k, w) :: rest, p, v => if k = p then (p, v) :: rest else (k, w) :: aset rest p v

/-- Embeds StoreBackend.getPhysicalPath. -/
def getPhysicalPath (st : StoreState) (virtualPath : String) : String :=
  let relativePath :=
    if strStartsWith virtualPath "/" then strDrop virtualPath 1 else virtualPath
  pathJoin2 st.namespaceDir relativePath

/-- Embeds StoreBackend.getVirtualPath. -/
def getVirtualPath (st : StoreState) (physicalPath : String) : String :=
  "/" ++ pathRelativeUnder st.namespaceDir physicalPath

/-- Models fs.existsSync against the store's slice (files, sidecars,
directories explicit or implied). -/
def storeExists (st : StoreState) (p : String) : Bool :=
  (alookup st.files p).isSome || (alookup st.metas p).isSome ||
    p = "/" || st.dirs.contains p ||
    st.files.any (fun e => strStartsWith e.1 (p ++ "/")) ||
    st.metas.any (fun e => strStartsWith e.1 (p ++ "/")) ||
    st.dirs.any (fun d => strStartsWith d (p ++ "/"))

/-- Embeds StoreBackend.readFileData: file content split into lines, with
timestamps from the sidecar when present and from stats otherwise. -/
def storeReadFileData (st : StoreState) (physicalPath : String) : Option FileData :=
  match alookup st.files physicalPath with
  | none => none
  | some f =>
    let metaPath := physicalPath ++ ".meta.json"
    match alookup st.metas metaPath with
    | some m => some ⟨jsSplitNl f.content, m.1, m.2⟩
    | none => some ⟨jsSplitNl f.content, f.btime, f.mtime⟩

/-- Embeds StoreBackend.writeFileData: ensures the parent directory, writes
the joined content (refreshing the stat mtime, preserving the birth time of
an existing file), and writes the metadata sidecar. -/
def storeWriteFileData (now : String) (st : StoreState) (physicalPath : String)
    (fd : FileData) : StoreState :=
  let dirsEnsured := (st.dirs ++ dirChain (physicalPath.data.length + 1)
    (pathDirname physicalPath)).dedup
  let btime := match alookup st.files physicalPath with
    | some f => f.btime
    | none => now
  { st with
    dirs := dirsEnsured
    files := aset st.files physicalPath ⟨jsJoinStr "\n" fd.content, btime, now⟩
    metas := aset st.metas (physicalPath ++ ".meta.json") (fd.created_at, fd.modified_at) }

/-- Embeds StoreBackend.read. -/
def storeRead (st : StoreState) (file_path : String) (offset limit : Nat) : String :=
  match storeReadFileData st (getPhysicalPath st file_path) with
  | none => "Error: File '" ++ file_path ++ "' not found"
  | some fd => formatReadResponse fd offset limit

/-- Embeds StoreBackend.write: refuses an existing physical path, otherwise
persists the record and its sidecar. -/
def storeWrite (now : String) (st : StoreState) (file_path content : String) :
    WriteResult × StoreState :=
  let physicalPath := getPhysicalPath st file_path
  if storeExists st physicalPath then
    (.error ("Cannot write to " ++ file_path ++
      " because it already exists. Read and then make an edit, or write to a new path."), st)
  else
    (.ok ⟨file_path, none⟩, storeWriteFileData now st physicalPath (createFileData now content))

/-- Embeds StoreBackend.edit. -/
def storeEdit (now : String) (st : StoreState) (file_path old_string new_string : String)
    (replace_all : Bool) : EditResult × StoreState :=
  let physicalPath := getPhysicalPath st file_path
  match storeReadFileData st physicalPath with
  | none => (.error ("Error: File '" ++ file_path ++ "' not found"), st)
  | some fileData =>
    match performStringReplacement (fileDataToString fileData) old_string new_string
        replace_all with
    | .error msg => (.error msg, st)
    | .ok result =>
      (.ok ⟨file_path, none, result.occurrences⟩,
        storeWriteFileData now st physicalPath (updateFileData now fileData result.newContent))

/-- Embeds StoreBackend.getAllFilesRecursive: every regular file strictly
below the directory, metadata sidecars skipped, in the modelled (path-sorted)
walk order. A base path naming a regular file makes the source's readdir
throw; no verified property reaches that shape. -/
def storeAllFilesUnder (st : StoreState) (dir : String) : List String :=
  if !storeExists st dir then []
  else
    insSort (fun a b => strLe a b)
      ((st.files.map Prod.fst).filter fun k =>
        strStartsWith k (if dir = "/" then "/" else dir ++ "/") &&
          !strEndsWith k ".meta.json")

/-- Embeds StoreBackend.grep_raw: regex validation (with the store's own
message shape), then a recursive scan of the namespace slice with an optional
glob filter on the virtual path. -/
def storeGrepRaw (st : StoreState) (pattern : String) (searchPath globPattern : Option String) :
    Except String (List GrepMatch) :=
  match jsRegexCheck pattern with
  | some _ => .error ("Error: Invalid regex pattern: " ++ pattern)
  | none =>
    let basePath := match searchPath with | none => "/" | some s => if s = "" then "/" else s
    let physicalBasePath := getPhysicalPath st basePath
    let allFiles := storeAllFilesUnder st physicalBasePath
    .ok ((allFiles.map fun physicalPath =>
      let virtualPath := getVirtualPath st physicalPath
      let keep := match globPattern with
        | some g => if g = "" then true else minimatchB virtualPath g false
        | none => true
      if !keep then []
      else
        match storeReadFileData st physicalPath with
        | none => []
        | some fd =>
          fd.content.enum.filterMap fun p =>
            if jsRegexTest pattern p.2 then some (⟨virtualPath, p.1 + 1, p.2⟩ : GrepMatch)
            else none).flatten)

/-- Embeds StoreBackend.glob_info: matches of the glob against virtual paths,
stat-backed, sorted by parsed modification time, newest first. -/
def storeGlobInfo (st : StoreState) (pattern : String) (searchPath : String) :
    List FileInfo :=
  let physicalBasePath := getPhysicalPath st searchPath
  let allFiles := storeAllFilesUnder st physicalBasePath
  let infos := allFiles.filterMap fun physicalPath =>
    let virtualPath := getVirtualPath st physicalPath
    if minimatchB virtualPath pattern false then
      (alookup st.files physicalPath).map fun f =>
        (⟨virtualPath, false, f.content.data.length, f.mtime⟩ : FileInfo)
    else none
  insSort (fun a b => decide (isoTimeKey b.modified_at ≤ isoTimeKey a.modified_at)) infos

/-! ## Composite router (CompositeBackend, src/unnamed/part_006)

The source's router is generic over the backend protocol; it is instantiated
here with in-memory children, which every routed property exercises. A child
backend reference becomes an index into the route list.
-/

/-- Modelled router state: the default child and the insertion-ordered route
map, each child being an in-memory file map. -/
structure CompositeState where
  defaultFiles : Files
  routes : List (String × Files)
  deriving DecidableEq, Repr

/-- Child map of route i. -/
def routeFiles (cs : CompositeState) (i : Nat) : Files :=
  ((cs.routes.get? i).map Prod.snd).getD []

/-- Positional update of a route list's child map (the source mutates the
backend object the route references). -/
def setRouteGo (f : Files) : List (String × Files) → Nat → List (String × Files)
  | [], _ => []
  | r :: rest, 0 => (r.1, f) :: rest
  | r :: rest, j + 1 => r :: setRouteGo f rest j

/-- Replaces the child map of route i. -/
def setRoute (cs : CompositeState) (i : Nat) (f : Files) : CompositeState :=
  ⟨cs.defaultFiles, setRouteGo f cs.routes i⟩

/-- Embeds the constructor's sortedRoutes: the routes stably sorted by
route-path length, longest first. -/
def sortedRoutes (cs : CompositeState) : List (String × Nat) :=
  insSort (fun a b => decide (strLen b.1 ≤ strLen a.1)) (cs.routes.enum.map fun e => (e.2.1, e.1))

/-- First route whose path is a full prefix of the key (the loop inside
getBackendAndKey). -/
def findFullMatch : List (String × Nat) → String → Option (String × Nat)
  | [], _ => none
  | (pfx, i) :: rest, key =>
    if strStartsWith key pfx then some (pfx, i) else findFullMatch rest key

/-- Embeds CompositeBackend.getBackendAndKey: the owning child (none for the
default backend) and the stripped key, which keeps a leading slash and is the
bare slash when the key equals the route path. -/
def getBackendAndKey (cs : CompositeState) (key : String) : Option Nat × String :=
  match findFullMatch (sortedRoutes cs) key with
  | some (pfx, i) =>
    let suffix := strDrop key (strLen pfx)
    (some i, if suffix ≠ "" then "/" ++ suffix else "/")
  | none => (none, key)

/-- Embeds routePrefix.replace with the trailing-slash regex: drops one
trailing slash. -/
def stripTrailingSlash (s : String) : String :=
  if strEndsWith s "/" then strDropRight s 1 else s

/-- First route whose slash-stripped path is a prefix of the path (the loop
shared by ls_info, grep_raw and glob_info). -/
def findCleanMatch : List (String × Nat) → String → Option (String × Nat)
  | [], _ => none
  | (pfx, i) :: rest, p =>
    if strStartsWith p (stripTrailingSlash pfx) then some (pfx, i) else findCleanMatch rest p

/-- Embeds CompositeBackend.read. -/
def compositeRead (cs : CompositeState) (file_path : String) (offset limit : Nat) : String :=
  match getBackendAndKey cs file_path with
  | (none, k) => stateRead cs.defaultFiles k offset limit
  | (some i, k) => stateRead (routeFiles cs i) k offset limit

/-- Embeds CompositeBackend.write. -/
def compositeWrite (now : String) (cs : CompositeState) (file_path content : String) :
    WriteResult × CompositeState :=
  match getBackendAndKey cs file_path with
  | (none, k) =>
    let r := stateWrite now cs.defaultFiles k content
    (r.1, ⟨r.2, cs.routes⟩)
  | (some i, k) =>
    let r := stateWrite now (routeFiles cs i) k content
    (r.1, setRoute cs i r.2)

/-- Embeds CompositeBackend.edit. -/
def compositeEdit (now : String) (cs : CompositeState)
    (file_path old_string new_string : String) (replace_all : Bool) :
    EditResult × CompositeState :=
  match getBackendAndKey cs file_path with
  | (none, k) =>
    let r := stateEdit now cs.defaultFiles k old_string new_string replace_all
    (r.1, ⟨r.2, cs.routes⟩)
  | (some i, k) =>
    let r := stateEdit now (routeFiles cs i) k old_string new_string replace_all
    (r.1, setRoute cs i r.2)

/-- Embeds CompositeBackend.ls_info: a slash-stripped route match dispatches
to that child with the suffix (its results re-prefixed); the root aggregates
the default listing with one synthetic directory per route; any other path
goes to the default child. -/
def compositeLsInfo (cs : CompositeState) (path : String) : List FileInfo :=
  match findCleanMatch (sortedRoutes cs) path with
  | some (pfx, i) =>
    let suffix := strDrop path (strLen pfx)
    let searchPath := if suffix ≠ "" then "/" ++ suffix else "/"
    (stateLsInfo (routeFiles cs i) searchPath).map fun fi =>
      { fi with path := stripTrailingSlash pfx ++ fi.path }
  | none =>
    if path = "/" then
      let results := stateLsInfo cs.defaultFiles path ++
        (sortedRoutes cs).map fun e => (⟨e.1, true, 0, ""⟩ : FileInfo)
      insSort (fun a b => strLe a.path b.path) results
    else stateLsInfo cs.defaultFiles path

/-- Per-route aggregation step of the composite search: each route's child is
searched at the root and its matches are re-prefixed; the first error string
aborts the whole search. -/
def grepRoutesGo (pattern : String) (glob : Option String) :
    List (String × Files) → List GrepMatch → Except String (List GrepMatch)
  | [], acc => .ok acc
  | (pfx, f) :: rest, acc =>
    match stateGrepRaw f pattern (some "/") glob with
    | .error e => .error e
    | .ok ms =>
      grepRoutesGo pattern glob rest
        (acc ++ ms.map fun m => { m with path := stripTrailingSlash pfx ++ m.path })

/-- Embeds CompositeBackend.grep_raw: a truthy path matching a slash-stripped
route dispatches to that child alone (stripping one character less than the
route length); otherwise the default child is searched with the original path
and every route child is searched at its root, errors propagating
immediately. -/
def compositeGrepRaw (cs : CompositeState) (pattern : String) (path glob : Option String) :
    Except String (List GrepMatch) :=
  let truthyPath := match path with | none => none | some p => if p = "" then none else some p
  match truthyPath with
  | some p =>
    match findCleanMatch (sortedRoutes cs) p with
    | some (pfx, i) =>
      let searchPath := strDrop p (strLen pfx - 1)
      let sp := if searchPath ≠ "" then searchPath else "/"
      (match stateGrepRaw (routeFiles cs i) pattern (some sp) glob with
        | .error e => .error e
        | .ok ms =>
          .ok (ms.map fun m => { m with path := stripTrailingSlash pfx ++ m.path }))
    | none =>
      (match stateGrepRaw cs.defaultFiles pattern path glob with
        | .error e => .error e
        | .ok ds => grepRoutesGo pattern glob cs.routes ds)
  | none =>
    match stateGrepRaw cs.defaultFiles pattern path glob with
    | .error e => .error e
    | .ok ds => grepRoutesGo pattern glob cs.routes ds

/-- Embeds CompositeBackend.glob_info: a slash-stripped route match
dispatches to that child alone; otherwise the default child is searched with
the original path, every route child at its root, and the aggregate is
sorted by path. -/
def compositeGlobInfo (cs : CompositeState) (pattern : String) (path : String) :
    List FileInfo :=
  match findCleanMatch (sortedRoutes cs) path with
  | some (pfx, i) =>
    let searchPath := strDrop path (strLen pfx - 1)
    let sp := if searchPath ≠ "" then searchPath else "/"
    (stateGlobInfo (routeFiles cs i) pattern sp).map fun fi =>
      { fi with path := stripTrailingSlash pfx ++ fi.path }
  | none =>
    let results := stateGlobInfo cs.defaultFiles pattern path ++
      (cs.routes.map fun e =>
        (stateGlobInfo e.2 pattern "/").map fun fi =>
          { fi with path := stripTrailingSlash e.1 ++ fi.path }).flatten
    insSort (fun a b => strLe a.path b.path) results

/-! ## Helper lemmas -/

theorem str_eq_empty_iff (s : String) : s = "" ↔ s.data = [] := by
  constructor
  · intro h
    exact congrArg String.data h
  · intro h
    cases s with
    | mk d => rw [show d = [] from h]

theorem isInfixL_iff (pat l : List Char) : isInfixL pat l = true ↔ pat <:+: l := by
  induction l with
  | nil => simp [isInfixL, List.isEmpty_iff]
  | cons c rest ih =>
    simp [isInfixL, Bool.or_eq_true, List.isPrefixOf_iff_prefix, ih, List.infix_cons_iff]

theorem splitCharList_exists_cons (sep : Char) (l : List Char) :
    ∃ h t, splitCharList sep l = h :: t := by
  induction l with
  | nil => exact ⟨[], [], rfl⟩
  | cons c rest ih =>
    obtain ⟨h, t, hht⟩ := ih
    by_cases hc : c = sep
    · exact ⟨[], splitCharList sep rest, by simp [splitCharList, hc]⟩
    · exact ⟨c :: h, t, by simp [splitCharList, hc, hht]⟩

theorem data_mk_append (a : String) (b : String) : (a ++ b).data = a.data ++ b.data :=
  String.data_append a b

theorem join_split_data (l : List Char) :
    (jsJoinStr "\n" ((splitCharList '\n' l).map String.mk)).data = l := by
  induction l with
  | nil => rfl
  | cons c rest ih =>
    obtain ⟨h, t, hht⟩ := splitCharList_exists_cons '\n' rest
    by_cases hc : c = '\n'
    · subst hc
      simp only [splitCharList, if_pos rfl]
      rw [hht] at ih ⊢
      simp only [List.map_cons, jsJoinStr, data_mk_append]
      simpa using ih
    · simp only [splitCharList, if_neg hc]
      rw [hht] at ih ⊢
      cases t with
      | nil =>
        simp only [List.map_cons, List.map_nil, jsJoinStr] at ih ⊢
        simpa using ih
      | cons x t' =>
        simp only [List.map_cons, jsJoinStr, data_mk_append] at ih ⊢
        simpa using ih

theorem jsJoin_jsSplitNl (c : String) : jsJoinStr "\n" (jsSplitNl c) = c := by
  have h := join_split_data c.data
  cases c with
  | mk d =>
    apply congrArg String.mk at h
    simpa [jsSplitNl, jsSplitChar] using h

theorem mem_join_infixL (s : String) (ll : List String) :
    s ∈ ll → s.data <:+: (jsJoinStr "\n" ll).data := by
  induction ll with
  | nil => intro h; cases h
  | cons x rest ih =>
    intro h
    cases rest with
    | nil =>
      rcases List.mem_cons.mp h with he | h'
      · rw [he]
        exact List.infix_refl _
      · cases h'
    | cons y t =>
      rcases List.mem_cons.mp h with he | h'
      · refine List.IsPrefix.isInfix ?_
        rw [he]
        show x.data <+: (x ++ "\n" ++ jsJoinStr "\n" (y :: t)).data
        rw [data_mk_append, data_mk_append]
        exact ⟨"\n".data ++ (jsJoinStr "\n" (y :: t)).data, by simp⟩
      · obtain ⟨u, v, huv⟩ := ih h'
        show s.data <:+: (x ++ "\n" ++ jsJoinStr "\n" (y :: t)).data
        rw [data_mk_append, data_mk_append]
        exact ⟨x.data ++ "\n".data ++ u, v, by rw [← huv]; simp⟩

theorem splitCharList_length_pos (sep : Char) (l : List Char) :
    0 < (splitCharList sep l).length := by
  obtain ⟨h, t, hht⟩ := splitCharList_exists_cons sep l
  simp [hht]

theorem jsSplitNl_length_pos (c : String) : 0 < (jsSplitNl c).length := by
  simpa [jsSplitNl, jsSplitChar] using splitCharList_length_pos '\n' c.data

theorem checkEmptyContent_of_blank (content : String) (h : jsTrim content = "") :
    checkEmptyContent content = some EMPTY_CONTENT_WARNING := by
  simp [checkEmptyContent, h]

theorem checkEmptyContent_of_nonblank (content : String) (h : jsTrim content ≠ "") :
    checkEmptyContent content = none := by
  have hc : content ≠ "" := by
    intro he
    subst he
    exact h rfl
  have h1 : content.data.isEmpty = false := by
    rw [List.isEmpty_eq_false_iff_exists_mem]
    rcases content.data.eq_nil_or_concat with hnil | ⟨l, a, hla⟩
    · exact absurd ((str_eq_empty_iff content).mpr hnil) hc
    · exact ⟨a, by simp [hla]⟩
  have h2 : (jsTrim content).data.isEmpty = false := by
    rw [List.isEmpty_eq_false_iff_exists_mem]
    rcases (jsTrim content).data.eq_nil_or_concat with hnil | ⟨l, a, hla⟩
    · exact absurd ((str_eq_empty_iff _).mpr hnil) h
    · exact ⟨a, by simp [hla]⟩
  simp [checkEmptyContent, h1, h2]

theorem filesGet_filesSet_self (files : Files) (p : String) (v : FileData) :
    filesGet (filesSet files p v) p = some v := by
  induction files with
  | nil => simp [filesSet, filesGet]
  | cons e rest ih =>
    by_cases hk : e.1 = p
    · simp [filesSet, hk, filesGet]
    · simp [filesSet, hk, filesGet, ih]

theorem filesHas_filesSet_self (files : Files) (p : String) (v : FileData) :
    filesHas (filesSet files p v) p = true := by
  simp [filesHas, filesGet_filesSet_self]

theorem filesGet_of_mem (files : Files) (p : String) (v : FileData) :
    (p, v) ∈ files → (files.map Prod.fst).Nodup → filesGet files p = some v := by
  induction files with
  | nil => intro h _; cases h
  | cons e rest ih =>
    intro h hnd
    rw [List.map_cons, List.nodup_cons] at hnd
    obtain ⟨hne, hnd'⟩ := hnd
    rcases List.mem_cons.mp h with he | h'
    · cases he
      simp [filesGet]
    · have hep : e.1 ≠ p := by
        intro he
        exact hne (by rw [he]; exact List.mem_map.mpr ⟨(p, v), h', rfl⟩)
      simp [filesGet, hep, ih h' hnd']

theorem alookup_aset_self {β : Type} (l : List (String × β)) (p : String) (v : β) :
    alookup (aset l p v) p = some v := by
  induction l with
  | nil => simp [aset, alookup]
  | cons e rest ih =>
    by_cases hk : e.1 = p
    · simp [aset, hk, alookup]
    · simp [aset, hk, alookup, ih]

theorem lookupFile_fsWriteFileGo (files : List (String × FsFile)) (p c now : String) :
    lookupFile (fsWriteFile ⟨files, []⟩ p c now).files p = some ⟨c, now⟩ := by
  induction files with
  | nil => simp [fsWriteFile, fsWriteFile.go, lookupFile]
  | cons e rest ih =>
    by_cases hk : e.1 = p
    · simp [fsWriteFile, fsWriteFile.go, hk, lookupFile]
    · simp only [fsWriteFile] at ih ⊢
      simp [fsWriteFile.go, hk, lookupFile, ih]

theorem fsGetFile_fsWriteFile_self (fs : Fs) (p c now : String) :
    fsGetFile (fsWriteFile fs p c now) p = some ⟨c, now⟩ := by
  have h := lookupFile_fsWriteFileGo fs.files p c now
  simpa [fsGetFile, fsWriteFile] using h

theorem lexLe_total (a b : List Char) : lexLe a b = true ∨ lexLe b a = true := by
  induction a generalizing b with
  | nil => left; rfl
  | cons x xs ih =>
    cases b with
    | nil => right; rfl
    | cons y ys =>
      rcases lt_trichotomy x y with h | h | h
      · left; simp [lexLe, h]
      · subst h
        rcases ih ys with h' | h'
        · left; simp [lexLe, lt_irrefl, h']
        · right; simp [lexLe, lt_irrefl, h']
      · right; simp [lexLe, h]

theorem lexLe_trans (a b c : List Char) (h1 : lexLe a b = true) (h2 : lexLe b c = true) :
    lexLe a c = true := by
  induction a generalizing b c with
  | nil => rfl
  | cons x xs ih =>
    cases b with
    | nil => simp [lexLe] at h1
    | cons y ys =>
      cases c with
      | nil => simp [lexLe] at h2
      | cons z zs =>
        simp only [lexLe] at h1 h2 ⊢
        rcases lt_trichotomy x y with hxy | hxy | hxy
        · rcases lt_trichotomy y z with hyz | hyz | hyz
          · simp [lt_trans hxy hyz]
          · subst hyz; simp [hxy]
          · simp [hyz, not_lt.mpr (le_of_lt hyz)] at h2
        · subst hxy
          rcases lt_trichotomy x z with hxz | hxz | hxz
          · simp [hxz]
          · subst hxz
            simp only [lt_irrefl, if_false] at h1 h2 ⊢
            exact ih ys zs h1 h2
          · simp [hxz, not_lt.mpr (le_of_lt hxz)] at h2
        · simp [hxy, not_lt.mpr (le_of_lt hxy)] at h1

theorem strLe_total (a b : String) : strLe a b = true ∨ strLe b a = true :=
  lexLe_total a.data b.data

theorem strLe_trans (a b c : String) (h1 : strLe a b = true) (h2 : strLe b c = true) :
    strLe a c = true :=
  lexLe_trans a.data b.data c.data h1 h2

/-! ## Lemmas about composite routing -/

theorem enumFrom_setRouteGo_map (f : Files) (l : List (String × Files)) :
    ∀ (i n : Nat),
      (List.enumFrom n (setRouteGo f l i)).map (fun e => (e.2.1, e.1)) =
      (List.enumFrom n l).map (fun e => (e.2.1, e.1)) := by
  induction l with
  | nil => intro i n; simp [setRouteGo]
  | cons r rest ih =>
    intro i n
    cases i with
    | zero => simp [setRouteGo, List.enumFrom]
    | succ j => simp [setRouteGo, List.enumFrom, ih j (n + 1)]

theorem sortedRoutes_setRoute (cs : CompositeState) (i : Nat) (f : Files) :
    sortedRoutes (setRoute cs i f) = sortedRoutes cs := by
  simp only [sortedRoutes, setRoute]
  rw [show List.enum (setRouteGo f cs.routes i) = List.enumFrom 0 (setRouteGo f cs.routes i)
      from rfl,
    show List.enum cs.routes = List.enumFrom 0 cs.routes from rfl,
    enumFrom_setRouteGo_map]

theorem get?_setRouteGo_self (f : Files) (l : List (String × Files)) :
    ∀ (i : Nat) (r : String × Files), l.get? i = some r →
      (setRouteGo f l i).get? i = some (r.1, f) := by
  induction l with
  | nil => intro i r h; simp at h
  | cons x rest ih =>
    intro i r h
    cases i with
    | zero =>
      simp only [List.get?] at h
      cases h
      simp [setRouteGo]
    | succ j =>
      simp only [List.get?] at h
      show (setRouteGo f rest j).get? j = some (r.1, f)
      exact ih j r h

theorem get?_setRouteGo_ne (f : Files) (l : List (String × Files)) :
    ∀ (i j : Nat), j ≠ i → (setRouteGo f l i).get? j = l.get? j := by
  induction l with
  | nil => intro i j _; simp [setRouteGo]
  | cons x rest ih =>
    intro i j hne
    cases i with
    | zero =>
      cases j with
      | zero => exact absurd rfl hne
      | succ k => simp [setRouteGo]
    | succ m =>
      cases j with
      | zero => simp [setRouteGo]
      | succ k =>
        show (setRouteGo f rest m).get? k = rest.get? k
        exact ih m k (fun h => hne (by rw [h]))

theorem mem_sortedRoutes (cs : CompositeState) (pfx : String) (i : Nat) :
    (pfx, i) ∈ sortedRoutes cs ↔ ∃ fl, cs.routes.get? i = some (pfx, fl) := by
  unfold sortedRoutes
  rw [mem_insSort, List.mem_map]
  constructor
  · rintro ⟨⟨n, s, fl⟩, hmem, heq⟩
    cases heq
    exact ⟨fl, by rw [List.get?_eq_getElem?]; exact List.mem_enum_iff_getElem?.mp hmem⟩
  · rintro ⟨fl, hget⟩
    refine ⟨(i, (pfx, fl)), List.mem_enum_iff_getElem?.mpr ?_, rfl⟩
    rw [← List.get?_eq_getElem?]
    exact hget

theorem sortedRoutes_pairwise_len (cs : CompositeState) :
    (sortedRoutes cs).Pairwise (fun x y => decide (strLen y.1 ≤ strLen x.1) = true) := by
  apply pairwise_insSort
  · intro a b
    rcases Nat.le_total (strLen b.1) (strLen a.1) with h | h
    · left; exact decide_eq_true h
    · right; exact decide_eq_true h
  · intro a b c h1 h2
    exact decide_eq_true (Nat.le_trans (of_decide_eq_true h2) (of_decide_eq_true h1))

theorem findFullMatch_eq_none (l : List (String × Nat)) (key : String)
    (h : ∀ e ∈ l, strStartsWith key e.1 = false) : findFullMatch l key = none := by
  induction l with
  | nil => rfl
  | cons x rest ih =>
    simp only [findFullMatch, h x (by simp), Bool.false_eq_true, if_false]
    exact ih fun e he => h e (List.mem_cons_of_mem x he)

theorem findFullMatch_mem (l : List (String × Nat)) (key : String) (pfx : String) (i : Nat) :
    findFullMatch l key = some (pfx, i) → (pfx, i) ∈ l ∧ strStartsWith key pfx = true := by
  induction l with
  | nil => intro h; cases h
  | cons x rest ih =>
    intro h
    by_cases hx : strStartsWith key x.1 = true
    · simp only [findFullMatch, hx, if_true] at h
      cases h
      exact ⟨by simp, hx⟩
    · simp only [findFullMatch, hx, if_false] at h
      obtain ⟨hm, hs⟩ := ih h
      exact ⟨List.mem_cons_of_mem x hm, hs⟩

theorem findFullMatch_longest (l : List (String × Nat)) (key : String) (pfx : String) (i : Nat)
    (hp : l.Pairwise (fun x y => decide (strLen y.1 ≤ strLen x.1) = true)) :
    findFullMatch l key = some (pfx, i) →
      ∀ e ∈ l, strStartsWith key e.1 = true → strLen e.1 ≤ strLen pfx := by
  induction l with
  | nil => intro h; cases h
  | cons x rest ih =>
    intro h e he hse
    rw [List.pairwise_cons] at hp
    obtain ⟨hx, hrest⟩ := hp
    by_cases hsx : strStartsWith key x.1 = true
    · simp only [findFullMatch, hsx, if_true] at h
      cases h
      rcases List.mem_cons.mp he with rfl | he'
      · exact Nat.le_refl _
      · exact of_decide_eq_true (hx e he')
    · simp only [findFullMatch, hsx, if_false] at h
      rcases List.mem_cons.mp he with rfl | he'
      · exact absurd hse hsx
      · exact ih hrest h e he' hse

theorem strStartsWith_stripTrailingSlash (p pfx : String)
    (h : strStartsWith p pfx = true) : strStartsWith p (stripTrailingSlash pfx) = true := by
  unfold stripTrailingSlash
  by_cases he : strEndsWith pfx "/" = true
  · simp only [he, if_true]
    rw [strStartsWith, List.isPrefixOf_iff_prefix] at h ⊢
    exact List.IsPrefix.trans (by simpa [strDropRight] using List.take_prefix _ pfx.data) h
  · simp only [he, if_false]
    exact h

theorem findCleanMatch_eq_none (l : List (String × Nat)) (p : String)
    (h : ∀ e ∈ l, strStartsWith p (stripTrailingSlash e.1) = false) :
    findCleanMatch l p = none := by
  induction l with
  | nil => rfl
  | cons x rest ih =>
    simp only [findCleanMatch, h x (by simp), Bool.false_eq_true, if_false]
    exact ih fun e he => h e (List.mem_cons_of_mem x he)

theorem findCleanMatch_eq_findFullMatch (l : List (String × Nat)) (p : String)
    (H : ∀ e ∈ l, strStartsWith p (stripTrailingSlash e.1) = true → strStartsWith p e.1 = true) :
    findCleanMatch l p = findFullMatch l p := by
  induction l with
  | nil => rfl
  | cons x rest ih =>
    by_cases hc : strStartsWith p (stripTrailingSlash x.1) = true
    · have hf : strStartsWith p x.1 = true := H x (by simp) hc
      simp [findCleanMatch, findFullMatch, hc, hf]
    · have hf : strStartsWith p x.1 = false := by
        by_contra hne
        exact hc (strStartsWith_stripTrailingSlash p x.1 (by simpa using hne))
      simp only [findCleanMatch, findFullMatch, hc, hf, Bool.false_eq_true, if_false]
      exact ih fun e he hse => H e (List.mem_cons_of_mem x he) hse

theorem setRouteGo_idem (f : Files) (l : List (String × Files)) :
    ∀ i, setRouteGo f (setRouteGo f l i) i = setRouteGo f l i := by
  induction l with
  | nil => intro i; cases i <;> rfl
  | cons x rest ih =>
    intro i
    cases i with
    | zero => simp [setRouteGo]
    | succ j => simp [setRouteGo, ih j]

/-! ## Claim theorems -/

/-- C1: the claim says every operation of the sandboxed disk backend rejects
a path containing a dot-dot segment or beginning with a tilde with a
traversal error before any filesystem access. The code keeps this promise
for dot-dot on read, write and edit (error string, state untouched), reports
it as an empty result on list and content search, and throws on name search;
but a leading tilde is never rejected: the tilde check runs on the string
after a slash has been prepended, so it can never fire, and a tilde path is
resolved as a literal tilde directory under the root and written
successfully. This theorem evaluates the embedded code at the failing input
(a tilde path) and at dot-dot inputs. -/
theorem c1_traversal_eval :
    (resolvePath ⟨"/r", true, 10485760⟩ "~/x" = .ok "/r/~/x") ∧
    ((fsWrite ⟨"/r", true, 10485760⟩ "t0" ⟨[], ["/r"]⟩ "~/x" "data").1 =
      .ok ⟨"~/x", none⟩) ∧
    (fsGetFile (fsWrite ⟨"/r", true, 10485760⟩ "t0" ⟨[], ["/r"]⟩ "~/x" "data").2 "/r/~/x" =
      some ⟨"data", "t0"⟩) ∧
    (fsWrite ⟨"/r", true, 10485760⟩ "t0" ⟨[], ["/r"]⟩ "/../e" "data" =
      (.error "Error writing file '/../e': Path traversal not allowed", ⟨[], ["/r"]⟩)) ∧
    (fsRead ⟨"/r", true, 10485760⟩ ⟨[], ["/r"]⟩ "/../e" 0 2000 =
      "Error reading file '/../e': Path traversal not allowed") ∧
    (fsEdit ⟨"/r", true, 10485760⟩ "t0" ⟨[], ["/r"]⟩ "/../e" "a" "b" false =
      (.error "Error editing file '/../e': Path traversal not allowed", ⟨[], ["/r"]⟩)) ∧
    (fsLsInfo ⟨"/r", true, 10485760⟩ ⟨[("/r/a.txt", ⟨"x", "t0"⟩)], ["/r"]⟩ "/.." = []) ∧
    (fsGrepRaw ⟨"/r", true, 10485760⟩ ⟨[("/r/a.txt", ⟨"x", "t0"⟩)], ["/r"]⟩ "x"
      (some "/..") none = .ok []) ∧
    (fsGlobInfo ⟨"/r", true, 10485760⟩ ⟨[], ["/r"]⟩ "*" "/.." =
      .error "Path traversal not allowed") := by
  decide

/-- C8 counterexample: a file whose content is the single space is an
existing, non-empty file; reading it at offset 1 (at its line count of 1)
must, per the claim, produce the out-of-range error, but the code returns the
empty-content sentinel, which is not an error string. -/
theorem c8_counterexample :
    (filesGet [("/w", ⟨[" "], "t0", "t0"⟩)] "/w" = some ⟨[" "], "t0", "t0"⟩) ∧
    (fileDataToString ⟨[" "], "t0", "t0"⟩ = " ") ∧
    ((" " : String) ≠ "") ∧
    ((jsSplitNl " ").length = 1) ∧
    (stateRead [("/w", ⟨[" "], "t0", "t0"⟩)] "/w" 1 1 = EMPTY_CONTENT_WARNING) ∧
    (EMPTY_CONTENT_WARNING ≠
      "Error: Line offset 1 exceeds file length (1 lines)") ∧
    (strStartsWith EMPTY_CONTENT_WARNING "Error" = false) := by
  decide

/-- C8 amended: on an existing file, read returns the empty-content sentinel
whenever the content is empty or whitespace-only, and returns the explicit
out-of-range error whenever the content has non-whitespace characters and the
0-indexed offset is at or beyond the line count. -/
theorem c8_empty_sentinel_and_range_error (files : Files) (p : String) (fd : FileData)
    (offset limit : Nat) (hget : filesGet files p = some fd) :
    (jsTrim (fileDataToString fd) = "" →
      stateRead files p offset limit = EMPTY_CONTENT_WARNING) ∧
    (jsTrim (fileDataToString fd) ≠ "" →
      (jsSplitNl (fileDataToString fd)).length ≤ offset →
      stateRead files p offset limit =
        "Error: Line offset " ++ toString offset ++ " exceeds file length (" ++
          toString (jsSplitNl (fileDataToString fd)).length ++ " lines)") := by
  constructor
  · intro hblank
    simp only [stateRead, hget, formatReadResponse,
      checkEmptyContent_of_blank (fileDataToString fd) hblank]
  · intro hnb hoff
    simp only [stateRead, hget, formatReadResponse,
      checkEmptyContent_of_nonblank (fileDataToString fd) hnb]
    simp [hoff]

/-- C8 witness: the amended theorem applied at a whitespace-only file and at
an out-of-range offset on a one-line file. -/
theorem c8_witness :
    (stateRead [("/w", ⟨[" "], "t0", "t0"⟩)] "/w" 0 1 = EMPTY_CONTENT_WARNING) ∧
    (stateRead [("/v", ⟨["x"], "t0", "t0"⟩)] "/v" 3 1 =
      "Error: Line offset 3 exceeds file length (1 lines)") :=
  ⟨(c8_empty_sentinel_and_range_error [("/w", ⟨[" "], "t0", "t0"⟩)] "/w"
      ⟨[" "], "t0", "t0"⟩ 0 1 (by decide)).1 (by decide),
   by
    have h := (c8_empty_sentinel_and_range_error [("/v", ⟨["x"], "t0", "t0"⟩)] "/v"
      ⟨["x"], "t0", "t0"⟩ 3 1 (by decide)).2 (by decide) (by decide)
    simpa using h⟩

/-- C3: edits refuse a missing old string and refuse an ambiguous (multiply
occurring) old string unless replace-all is set; a failing edit never
modifies the file (shown for the in-memory and disk backends); and on the
content of three space-separated letters, the non-replace-all edit fails
leaving content unchanged while the replace-all edit succeeds with three
occurrences and the fully replaced content. -/
theorem c3_edit_uniqueness :
    (∀ content oldString newString replaceAll,
      countOccurrences content oldString = 0 →
      performStringReplacement content oldString newString replaceAll =
        .error ("Error: String not found in file: '" ++ oldString ++ "'")) ∧
    (∀ content oldString newString,
      1 < countOccurrences content oldString →
      performStringReplacement content oldString newString false =
        .error ("Error: String '" ++ oldString ++ "' appears " ++
          toString (countOccurrences content oldString) ++
          " times in file. Use replace_all=true to replace all instances, or provide a more specific string with surrounding context.")) ∧
    (∀ now files p o n ra msg,
      (stateEdit now files p o n ra).1 = .error msg →
      (stateEdit now files p o n ra).2 = files) ∧
    (∀ cfg now fs p o n ra msg,
      (fsEdit cfg now fs p o n ra).1 = .error msg →
      (fsEdit cfg now fs p o n ra).2 = fs) ∧
    (stateEdit "t1" [("/f", ⟨["a a a"], "t0", "t0"⟩)] "/f" "a" "b" false =
      (.error ("Error: String 'a' appears 3 times in file. Use replace_all=true to replace all instances, or provide a more specific string with surrounding context."),
        [("/f", ⟨["a a a"], "t0", "t0"⟩)])) ∧
    (stateEdit "t1" [("/f", ⟨["a a a"], "t0", "t0"⟩)] "/f" "a" "b" true =
      (.ok ⟨"/f", some [("/f", ⟨["b b b"], "t0", "t1"⟩)], 3⟩,
        [("/f", ⟨["b b b"], "t0", "t1"⟩)])) ∧
    (stateEdit "t1" [("/f", ⟨["a a a"], "t0", "t0"⟩)] "/f" "z" "b" false =
      (.error "Error: String not found in file: 'z'",
        [("/f", ⟨["a a a"], "t0", "t0"⟩)])) := by
  refine ⟨?_, ?_, ?_, ?_, by decide, by decide, by decide⟩
  · intro content oldString newString replaceAll h
    simp [performStringReplacement, h]
  · intro content oldString newString h
    have h0 : countOccurrences content oldString ≠ 0 := by omega
    simp [performStringReplacement, h0, h]
  · intro now files p o n ra msg h
    cases hg : filesGet files p with
    | none => simp [stateEdit, hg]
    | some fd =>
      cases hr : performStringReplacement (fileDataToString fd) o n ra with
      | error m => simp [stateEdit, hg, hr]
      | ok result => simp [stateEdit, hg, hr] at h
  · intro cfg now fs p o n ra msg h
    cases hres : resolvePath cfg p with
    | error e => simp [fsEdit, hres]
    | ok rp =>
      cases hg : fsGetFile fs rp with
      | none => simp [fsEdit, hres, hg]
      | some f =>
        cases hr : performStringReplacement f.content o n ra with
        | error m => simp [fsEdit, hres, hg, hr]
        | ok result => simp [fsEdit, hres, hg, hr] at h

/-- C3 witness: the universally quantified parts of the theorem applied at
concrete inputs. -/
theorem c3_witness :
    (performStringReplacement "xyz" "q" "r" false =
      .error "Error: String not found in file: 'q'") ∧
    (performStringReplacement "a a" "a" "b" false =
      .error ("Error: String 'a' appears 2 times in file. Use replace_all=true to replace all instances, or provide a more specific string with surrounding context.")) ∧
    ((stateEdit "t" [] "/m" "a" "b" false).2 = []) ∧
    ((fsEdit ⟨"/r", true, 10⟩ "t" ⟨[], []⟩ "/m" "a" "b" false).2 = ⟨[], []⟩) := by
  refine ⟨?_, ?_, ?_, ?_⟩
  · have h := c3_edit_uniqueness.1 "xyz" "q" "r" false (by decide)
    simpa using h
  · have h := c3_edit_uniqueness.2.1 "a a" "a" "b" (by decide)
    simpa using h
  · exact c3_edit_uniqueness.2.2.1 "t" [] "/m" "a" "b" false
      "Error: File '/m' not found" (by decide)
  · exact c3_edit_uniqueness.2.2.2.1 ⟨"/r", true, 10⟩ "t" ⟨[], []⟩ "/m" "a" "b" false
      "Error: File '/m' not found" (by decide)

/-- C2: on each backend a successful write followed by a second write to the
same path fails the second call with the already-exists error and leaves the
entire state, hence the stored content, exactly as after the first call.
Shown for the in-memory, disk, persistent and composite backends. -/
theorem c2_write_once :
    (∀ now1 now2 (files : Files) p c1 c2 w,
      (stateWrite now1 files p c1).1 = .ok w →
      (stateWrite now2 (stateWrite now1 files p c1).2 p c2).1 =
        .error ("Cannot write to " ++ p ++
          " because it already exists. Read and then make an edit, or write to a new path.") ∧
      (stateWrite now2 (stateWrite now1 files p c1).2 p c2).2 =
        (stateWrite now1 files p c1).2) ∧
    (∀ cfg now1 now2 (fs : Fs) p c1 c2 w,
      (fsWrite cfg now1 fs p c1).1 = .ok w →
      (fsWrite cfg now2 (fsWrite cfg now1 fs p c1).2 p c2).1 =
        .error ("Cannot write to " ++ p ++
          " because it already exists. Read and then make an edit, or write to a new path.") ∧
      (fsWrite cfg now2 (fsWrite cfg now1 fs p c1).2 p c2).2 =
        (fsWrite cfg now1 fs p c1).2) ∧
    (∀ now1 now2 (st : StoreState) p c1 c2 w,
      (storeWrite now1 st p c1).1 = .ok w →
      (storeWrite now2 (storeWrite now1 st p c1).2 p c2).1 =
        .error ("Cannot write to " ++ p ++
          " because it already exists. Read and then make an edit, or write to a new path.") ∧
      (storeWrite now2 (storeWrite now1 st p c1).2 p c2).2 =
        (storeWrite now1 st p c1).2) ∧
    (∀ now1 now2 (cs : CompositeState) p c1 c2 w,
      (compositeWrite now1 cs p c1).1 = .ok w →
      (compositeWrite now2 (compositeWrite now1 cs p c1).2 p c2).1 =
        .error ("Cannot write to " ++ (getBackendAndKey cs p).2 ++
          " because it already exists. Read and then make an edit, or write to a new path.") ∧
      (compositeWrite now2 (compositeWrite now1 cs p c1).2 p c2).2 =
        (compositeWrite now1 cs p c1).2) := by
  refine ⟨?_, ?_, ?_, ?_⟩
  · intro now1 now2 files p c1 c2 w h
    by_cases hb : filesHas files p = true
    · exfalso
      simp [stateWrite, hb] at h
    · have hb' : filesHas files p = false := by simpa using hb
      simp [stateWrite, hb', filesHas_filesSet_self]
  · intro cfg now1 now2 fs p c1 c2 w h
    cases hr : resolvePath cfg p with
    | error e => exfalso; simp [fsWrite, hr] at h
    | ok rp =>
      by_cases hex : fsExists fs rp = true
      · exfalso; simp [fsWrite, hr, hex] at h
      · have hex' : fsExists fs rp = false := by simpa using hex
        have hfile :
            fsExists (fsWriteFile (fsMkdirp fs (pathDirname rp)) rp c1 now1) rp = true := by
          simp [fsExists, fsIsFile, fsGetFile_fsWriteFile_self]
        simp [fsWrite, hr, hex', hfile]
  · intro now1 now2 st p c1 c2 w h
    by_cases hex : storeExists st (getPhysicalPath st p) = true
    · exfalso; simp [storeWrite, hex] at h
    · have hex' : storeExists st (getPhysicalPath st p) = false := by simpa using hex
      have hdir : getPhysicalPath
          (storeWriteFileData now1 st (getPhysicalPath st p) (createFileData now1 c1)) p =
          getPhysicalPath st p := by
        simp [getPhysicalPath, storeWriteFileData]
      have hex2 : storeExists
          (storeWriteFileData now1 st (getPhysicalPath st p) (createFileData now1 c1))
          (getPhysicalPath st p) = true := by
        simp [storeExists, storeWriteFileData, alookup_aset_self]
      simp [storeWrite, hex', hdir, hex2]
  · intro now1 now2 cs p c1 c2 w h
    simp only [compositeWrite, getBackendAndKey] at h ⊢
    cases hm : findFullMatch (sortedRoutes cs) p with
    | none =>
      simp only [hm] at h ⊢
      by_cases hb : filesHas cs.defaultFiles p = true
      · exfalso; simp [stateWrite, hb] at h
      · have hb' : filesHas cs.defaultFiles p = false := by simpa using hb
        have hsr : ∀ X : Files,
            sortedRoutes (⟨X, cs.routes⟩ : CompositeState) = sortedRoutes cs :=
          fun _ => rfl
        simp [hsr, hm, stateWrite, hb', filesHas_filesSet_self]
    | some pi =>
      obtain ⟨pfx, i⟩ := pi
      simp only [hm] at h ⊢
      by_cases hb : filesHas (routeFiles cs i)
          (if strDrop p (strLen pfx) ≠ "" then "/" ++ strDrop p (strLen pfx) else "/") = true
      · exfalso
        simp only [stateWrite, hb, if_true] at h
        cases h
      · have hb' : filesHas (routeFiles cs i)
            (if strDrop p (strLen pfx) ≠ "" then "/" ++ strDrop p (strLen pfx) else "/") =
            false := by simpa using hb
        obtain ⟨hmem, _⟩ := findFullMatch_mem (sortedRoutes cs) p pfx i hm
        obtain ⟨fl, hget⟩ := (mem_sortedRoutes cs pfx i).mp hmem
        have hrf : ∀ X : Files, routeFiles (setRoute cs i X) i = X := by
          intro X
          show (Option.map Prod.snd ((setRouteGo X cs.routes i).get? i)).getD [] = X
          rw [get?_setRouteGo_self X cs.routes i (pfx, fl) hget]
          rfl
        have hsr : ∀ X : Files, sortedRoutes (setRoute cs i X) = sortedRoutes cs :=
          fun X => sortedRoutes_setRoute cs i X
        have hidem : ∀ X : Files, setRoute (setRoute cs i X) i X = setRoute cs i X := by
          intro X
          simp [setRoute, setRouteGo_idem]
        have hbF : filesHas (routeFiles cs i)
            (if strDrop p (strLen pfx) = "" then "/" else "/" ++ strDrop p (strLen pfx)) =
            false := by
          by_cases hd : strDrop p (strLen pfx) = ""
          · simpa [hd] using hb'
          · simpa [hd] using hb'
        simp [stateWrite, hbF, hsr, hm, hrf, filesHas_filesSet_self, hidem]

/-- C2 witness: the write-once theorem applied to each backend at a concrete
path and contents. -/
theorem c2_witness :
    ((stateWrite "t2" (stateWrite "t1" [] "/a" "x").2 "/a" "y").1 =
      .error "Cannot write to /a because it already exists. Read and then make an edit, or write to a new path.") ∧
    ((fsWrite ⟨"/r", true, 10⟩ "t2" (fsWrite ⟨"/r", true, 10⟩ "t1" ⟨[], []⟩ "/a" "x").2
        "/a" "y").1 =
      .error "Cannot write to /a because it already exists. Read and then make an edit, or write to a new path.") ∧
    ((storeWrite "t2" (storeWrite "t1" ⟨"/ns", [], [], []⟩ "/a" "x").2 "/a" "y").1 =
      .error "Cannot write to /a because it already exists. Read and then make an edit, or write to a new path.") ∧
    ((compositeWrite "t2"
        (compositeWrite "t1" ⟨[], [("/mem/", [])]⟩ "/mem/f" "x").2 "/mem/f" "y").1 =
      .error ("Cannot write to " ++
        (getBackendAndKey (⟨[], [("/mem/", [])]⟩ : CompositeState) "/mem/f").2 ++
        " because it already exists. Read and then make an edit, or write to a new path.")) := by
  refine ⟨?_, ?_, ?_, ?_⟩
  · have h := (c2_write_once.1 "t1" "t2" [] "/a" "x" "y"
      ⟨"/a", some [("/a", createFileData "t1" "x")]⟩ (by decide)).1
    simpa using h
  · have h := (c2_write_once.2.1 ⟨"/r", true, 10⟩ "t1" "t2" ⟨[], []⟩ "/a" "x" "y"
      ⟨"/a", none⟩ (by decide)).1
    simpa using h
  · have h := (c2_write_once.2.2.1 "t1" "t2" ⟨"/ns", [], [], []⟩ "/a" "x" "y"
      ⟨"/a", none⟩ (by decide)).1
    simpa using h
  · have h := (c2_write_once.2.2.2 "t1" "t2" ⟨[], [("/mem/", [])]⟩ "/mem/f" "x" "y"
      ⟨"/f", some [("/f", createFileData "t1" "x")]⟩ (by decide)).1
    simpa using h

/-- C4 counterexample: whitespace-only content is accepted by write, but the
subsequent read returns the empty-content sentinel instead of the content's
single line prefixed with its line number, so the round-trip claim fails for
this valid path and content. -/
theorem c4_counterexample :
    ((stateWrite "t0" [] "/f" " ").1 = .ok ⟨"/f", some [("/f", ⟨[" "], "t0", "t0"⟩)]⟩) ∧
    ((jsSplitNl " ").length = 1) ∧
    (stateRead (stateWrite "t0" [] "/f" " ").2 "/f" 0 1 = EMPTY_CONTENT_WARNING) ∧
    (isInfixL (padStart LINE_NUMBER_WIDTH (toString 1) ++ "\t" ++ " ").data
      (stateRead (stateWrite "t0" [] "/f" " ").2 "/f" 0 1).data = false) := by
  decide

/-- C4 amended: for content that is not whitespace-only and whose lines all
fit within the maximum line length, a successful write followed by a read
from offset 0 with a limit of at least the line count returns the full
numbered rendering, and that rendering contains every line of the content
prefixed by its left-padded 1-indexed line number and a tab. -/
theorem c4_roundtrip (now : String) (files : Files) (p c : String) (N : Nat)
    (hfree : filesHas files p = false)
    (hnb : jsTrim c ≠ "")
    (hshort : ∀ line ∈ jsSplitNl c, line.data.length ≤ MAX_LINE_LENGTH)
    (hN : (jsSplitNl c).length ≤ N) :
    ((stateWrite now files p c).1 = .ok ⟨p, some [(p, createFileData now c)]⟩) ∧
    (stateRead (stateWrite now files p c).2 p 0 N =
      formatContentWithLineNumbers (jsSplitNl c) 1) ∧
    (∀ i (hi : i < (jsSplitNl c).length),
      isInfixL (padStart LINE_NUMBER_WIDTH (toString (i + 1)) ++ "\t" ++
          (jsSplitNl c).get ⟨i, hi⟩).data
        (stateRead (stateWrite now files p c).2 p 0 N).data = true) := by
  have hw2 : (stateWrite now files p c).2 = filesSet files p (createFileData now c) := by
    simp [stateWrite, hfree]
  have hcontent : fileDataToString (createFileData now c) = c := by
    simp [fileDataToString, createFileData, jsJoin_jsSplitNl]
  have hread : stateRead (stateWrite now files p c).2 p 0 N =
      formatContentWithLineNumbers (jsSplitNl c) 1 := by
    rw [hw2]
    simp only [stateRead, filesGet_filesSet_self]
    simp only [formatReadResponse, hcontent, checkEmptyContent_of_nonblank c hnb]
    have hlen : ¬ ((jsSplitNl c).length ≤ 0) := by
      have := jsSplitNl_length_pos c
      omega
    simp only [hlen, if_false]
    rw [List.drop_zero, Nat.zero_add, Nat.sub_zero, Nat.min_eq_right hN, List.take_length]
  refine ⟨by simp [stateWrite, hfree], hread, ?_⟩
  intro i hi
  rw [hread, isInfixL_iff]
  apply mem_join_infixL
  have hline := hshort ((jsSplitNl c).get ⟨i, hi⟩) (List.get_mem _ _ _)
  refine List.mem_flatten.mpr ⟨formatOneLine (i + 1) ((jsSplitNl c).get ⟨i, hi⟩), ?_, ?_⟩
  · refine List.mem_map.mpr ⟨(i, (jsSplitNl c).get ⟨i, hi⟩), ?_, rfl⟩
    refine List.mem_enum_iff_getElem?.mpr ?_
    rw [← List.get?_eq_getElem?]
    exact List.get?_eq_get hi
  · have hlen' : ((jsSplitNl c).get ⟨i, hi⟩).length ≤ MAX_LINE_LENGTH := hline
    simp only [List.get_eq_getElem] at hlen'
    simp [formatOneLine, hlen']

/-- C4 witness: the round-trip theorem applied at a two-line content. -/
theorem c4_witness :
    (stateRead (stateWrite "t" [] "/f" "hello\nworld").2 "/f" 0 2 =
      "     1\thello\n     2\tworld") ∧
    (isInfixL (padStart LINE_NUMBER_WIDTH (toString (0 + 1)) ++ "\t" ++
        (jsSplitNl "hello\nworld").get ⟨0, by decide⟩).data
      (stateRead (stateWrite "t" [] "/f" "hello\nworld").2 "/f" 0 2).data = true) := by
  constructor
  · have h := (c4_roundtrip "t" [] "/f" "hello\nworld" 2 (by decide) (by decide)
      (by decide) (by decide)).2.1
    rw [h]
    decide
  · exact (c4_roundtrip "t" [] "/f" "hello\nworld" 2 (by decide) (by decide)
      (by decide) (by decide)).2.2 0 (by decide)

/-- C5 counterexample: the claim quantifies over every operation, but list
dispatches through the clean-prefix loop, not the longest-prefix dispatch.
With routes slash-mem-slash and slash-mem-long-slash, listing slash-mem-long
is handled by the slash-mem-long-slash child — whose route path is not even
a prefix of the listed path — although the longest registered prefix of the
path is slash-mem-slash; the result therefore differs from the slash-mem
child's listing of slash-long re-prefixed, which the claim requires. -/
theorem c5_counterexample :
    (findCleanMatch (sortedRoutes ⟨[],
        [("/mem/", [("/long/a.txt", ⟨["aa"], "t0", "t0"⟩)]),
          ("/mem/long/", [("/b.txt", ⟨["bb"], "t0", "t0"⟩)])]⟩) "/mem/long" =
      some ("/mem/long/", 1)) ∧
    (strStartsWith "/mem/long" "/mem/long/" = false) ∧
    (strStartsWith "/mem/long" "/mem/" = true) ∧
    (compositeLsInfo ⟨[],
        [("/mem/", [("/long/a.txt", ⟨["aa"], "t0", "t0"⟩)]),
          ("/mem/long/", [("/b.txt", ⟨["bb"], "t0", "t0"⟩)])]⟩ "/mem/long" =
      [⟨"/mem/long/b.txt", false, 2, "t0"⟩]) ∧
    ((stateLsInfo [("/long/a.txt", ⟨["aa"], "t0", "t0"⟩)] "/long").map
        (fun fi => { fi with path := "/mem" ++ fi.path }) =
      [⟨"/mem/long/a.txt", false, 2, "t0"⟩]) ∧
    (([⟨"/mem/long/b.txt", false, 2, "t0"⟩] : List FileInfo) ≠
      [⟨"/mem/long/a.txt", false, 2, "t0"⟩]) := by
  decide

/-- C5 amended: for read, write and edit — the operations dispatched through
getBackendAndKey — routing picks a registered route whose path is a prefix
of the key and is longest among all matching routes, stripping exactly that
prefix while keeping a leading slash (the bare slash when the key equals the
route path); keys matching no route go to the default backend unchanged.
List and search instead match routes on the route path minus its trailing
slash (see the counterexample). Concretely, with the two routes of the
spec's test, a write through the router lands in the longer route's child at
the stripped path and is not visible in the shorter route's child. -/
theorem c5_longest_prefix_routing :
    (∀ (cs : CompositeState) (key pfx : String) (i : Nat),
      findFullMatch (sortedRoutes cs) key = some (pfx, i) →
      (∃ fl, cs.routes.get? i = some (pfx, fl)) ∧
      strStartsWith key pfx = true ∧
      (∀ e ∈ sortedRoutes cs, strStartsWith key e.1 = true → strLen e.1 ≤ strLen pfx) ∧
      getBackendAndKey cs key =
        (some i,
          if strDrop key (strLen pfx) ≠ "" then "/" ++ strDrop key (strLen pfx) else "/")) ∧
    (∀ (cs : CompositeState) (key : String),
      (∀ e ∈ sortedRoutes cs, strStartsWith key e.1 = false) →
      getBackendAndKey cs key = (none, key)) ∧
    (compositeWrite "t1" ⟨[], [("/mem/", []), ("/mem/long/", [])]⟩ "/mem/long/file.txt"
        "content" =
      (.ok ⟨"/file.txt", some [("/file.txt", ⟨["content"], "t1", "t1"⟩)]⟩,
        ⟨[], [("/mem/", []), ("/mem/long/", [("/file.txt", ⟨["content"], "t1", "t1"⟩)])]⟩)) ∧
    (routeFiles (compositeWrite "t1" ⟨[], [("/mem/", []), ("/mem/long/", [])]⟩
        "/mem/long/file.txt" "content").2 1 =
      [("/file.txt", ⟨["content"], "t1", "t1"⟩)]) ∧
    (routeFiles (compositeWrite "t1" ⟨[], [("/mem/", []), ("/mem/long/", [])]⟩
        "/mem/long/file.txt" "content").2 0 = []) ∧
    (stateRead (routeFiles (compositeWrite "t1" ⟨[], [("/mem/", []), ("/mem/long/", [])]⟩
        "/mem/long/file.txt" "content").2 1) "/file.txt" 0 2000 = "     1\tcontent") := by
  refine ⟨?_, ?_, by decide, by decide, by decide, by decide⟩
  · intro cs key pfx i hm
    obtain ⟨hmem, hsw⟩ := findFullMatch_mem (sortedRoutes cs) key pfx i hm
    refine ⟨(mem_sortedRoutes cs pfx i).mp hmem, hsw, ?_, ?_⟩
    · exact findFullMatch_longest (sortedRoutes cs) key pfx i
        (sortedRoutes_pairwise_len cs) hm
    · simp [getBackendAndKey, hm]
  · intro cs key h
    simp [getBackendAndKey, findFullMatch_eq_none (sortedRoutes cs) key h]

/-- C5 witness: the dispatch theorem applied at the two-route configuration
of the spec's test and at an unrouted key. -/
theorem c5_witness :
    (getBackendAndKey ⟨[], [("/mem/", []), ("/mem/long/", [])]⟩ "/mem/long/file.txt" =
      (some 1,
        if strDrop "/mem/long/file.txt" (strLen "/mem/long/") ≠ "" then
          "/" ++ strDrop "/mem/long/file.txt" (strLen "/mem/long/")
        else "/")) ∧
    (getBackendAndKey ⟨[], [("/mem/", []), ("/mem/long/", [])]⟩ "/other" =
      (none, "/other")) := by
  constructor
  · exact (c5_longest_prefix_routing.1 ⟨[], [("/mem/", []), ("/mem/long/", [])]⟩
      "/mem/long/file.txt" "/mem/long/" 1 (by decide)).2.2.2
  · exact c5_longest_prefix_routing.2.1 ⟨[], [("/mem/", []), ("/mem/long/", [])]⟩
      "/other" (by decide)

theorem pairs_filterMap_sorted (files : Files) (pl : List (String × String)) :
    pl.Pairwise (fun a b => strLe b.2 a.2 = true) →
    (∀ x ∈ pl, ∃ fd, filesGet files x.1 = some fd ∧ fd.modified_at = x.2) →
    List.Pairwise (fun a b => strLe b.modified_at a.modified_at = true)
      ((pl.map Prod.fst).filterMap (fun fp => (filesGet files fp).map
        (fun fd =>
          (⟨fp, false, (jsJoinStr "\n" fd.content).data.length, fd.modified_at⟩ : FileInfo)))) := by
  induction pl with
  | nil => intro _ _; simp
  | cons x t ih =>
    intro hsorted hpair
    rw [List.pairwise_cons] at hsorted
    obtain ⟨hhead, htail⟩ := hsorted
    obtain ⟨fd, hget, hmod⟩ := hpair x (by simp)
    have hmem_result : ∀ z ∈ (t.map Prod.fst).filterMap (fun fp => (filesGet files fp).map
        (fun fd =>
          (⟨fp, false, (jsJoinStr "\n" fd.content).data.length, fd.modified_at⟩ : FileInfo))),
        ∃ y ∈ t, z.modified_at = y.2 := by
      intro z hz
      obtain ⟨fp, hfp, hfz⟩ := List.mem_filterMap.mp hz
      obtain ⟨y, hy, hy1⟩ := List.mem_map.mp hfp
      obtain ⟨fd', hget', hmod'⟩ := hpair y (List.mem_cons_of_mem x hy)
      cases hg2 : filesGet files fp with
      | none => rw [hg2] at hfz; cases hfz
      | some fdz =>
        rw [hg2] at hfz
        cases hfz
        refine ⟨y, hy, ?_⟩
        have : fdz = fd' := by
          rw [← hy1] at hg2
          rw [hg2] at hget'
          cases hget'
          rfl
        simp [this, hmod']
    simp only [List.map_cons, List.filterMap_cons, hget, Option.map_some']
    rw [List.pairwise_cons]
    constructor
    · intro z hz
      obtain ⟨y, hy, hzy⟩ := hmem_result z hz
      show strLe z.modified_at fd.modified_at = true
      rw [hzy, hmod]
      exact hhead y hy
    · exact ih htail fun y hy => hpair y (List.mem_cons_of_mem x hy)

theorem stateGlobInfo_sorted (files : Files) (pattern path : String)
    (hnd : (files.map Prod.fst).Nodup) :
    (stateGlobInfo files pattern path).Pairwise
      (fun a b => strLe b.modified_at a.modified_at = true) := by
  unfold stateGlobInfo globSearchFiles
  cases hv : validatePath (some path) with
  | error e => simp [hv]
  | ok normalizedPath =>
    simp only [hv]
    apply pairs_filterMap_sorted
    · apply List.Pairwise.imp (fun {a b} h => h)
      apply pairwise_insSort
      · intro a b
        rcases strLe_total b.2 a.2 with h | h
        · left; exact h
        · right; exact h
      · intro a b c h1 h2
        exact strLe_trans c.2 b.2 a.2 h2 h1
    · intro x hx
      rw [mem_insSort] at hx
      obtain ⟨e, he, hg⟩ := List.mem_filterMap.mp hx
      have hef : e ∈ files := (List.mem_filter.mp he).1
      have hfd := filesGet_of_mem files e.1 e.2 hef hnd
      split at hg
      all_goals split at hg
      all_goals try split at hg
      all_goals first
        | (cases hg; exact ⟨e.2, hfd, rfl⟩)
        | cases hg

theorem storeGlobInfo_sorted (st : StoreState) (pattern path : String) :
    (storeGlobInfo st pattern path).Pairwise
      (fun a b => isoTimeKey b.modified_at ≤ isoTimeKey a.modified_at) := by
  unfold storeGlobInfo
  apply List.Pairwise.imp (fun {a b} h => of_decide_eq_true h)
  apply pairwise_insSort
  · intro a b
    rcases Nat.le_total (isoTimeKey b.modified_at) (isoTimeKey a.modified_at) with h | h
    · left; exact decide_eq_true h
    · right; exact decide_eq_true h
  · intro a b c h1 h2
    exact decide_eq_true
      (Nat.le_trans (of_decide_eq_true h2) (of_decide_eq_true h1))

theorem fsGlobInfo_sorted (cfg : FsConfig) (fs : Fs) (pattern sp : String)
    (l : List FileInfo) (h : fsGlobInfo cfg fs pattern sp = .ok l) :
    l.Pairwise (fun a b => strLe a.path b.path = true) := by
  unfold fsGlobInfo at h
  cases hb : (if sp = "/" then Except.ok cfg.cwd else resolvePath cfg sp) with
  | error e => rw [hb] at h; cases h
  | ok basePath =>
    rw [hb] at h
    dsimp only [] at h
    by_cases hd : (!fsIsDir fs basePath || fsIsFile fs basePath) = true
    · rw [if_pos hd] at h
      cases h
      simp
    · rw [if_neg hd] at h
      cases h
      apply List.Pairwise.imp (fun {a b} hx => hx)
      apply pairwise_insSort
      · intro a b
        rcases strLe_total a.path b.path with hx | hx
        · left; exact hx
        · right; exact hx
      · intro a b c h1 h2
        exact strLe_trans a.path b.path c.path h1 h2

/-- C6 counterexample: in the sandboxed disk backend, two files whose path
order disagrees with their modification-time order come back from name
search in path order — the older file first — refuting the claim that every
backend returns name-search results ordered by modification time, most
recent first. -/
theorem c6_counterexample :
    (fsGlobInfo ⟨"/r", true, 10485760⟩
        ⟨[("/r/a.txt", ⟨"x", "2020-01-01T00:00:00.000Z"⟩),
          ("/r/z.txt", ⟨"y", "2021-01-01T00:00:00.000Z"⟩)], ["/r"]⟩ "*" "/" =
      .ok [⟨"/a.txt", false, 1, "2020-01-01T00:00:00.000Z"⟩,
        ⟨"/z.txt", false, 1, "2021-01-01T00:00:00.000Z"⟩]) ∧
    (isoTimeKey "2020-01-01T00:00:00.000Z" < isoTimeKey "2021-01-01T00:00:00.000Z") ∧
    (strLe "2021-01-01T00:00:00.000Z" "2020-01-01T00:00:00.000Z" = false) := by
  decide

/-- C6 amended: the in-memory backend's name search returns results ordered
by modification time, most recent first (on states without duplicate keys),
and so does the persistent backend's; the disk backend's name search instead
returns its results ordered by path. -/
theorem c6_glob_ordering :
    (∀ (files : Files) (pattern path : String), (files.map Prod.fst).Nodup →
      (stateGlobInfo files pattern path).Pairwise
        (fun a b => strLe b.modified_at a.modified_at = true)) ∧
    (∀ (st : StoreState) (pattern path : String),
      (storeGlobInfo st pattern path).Pairwise
        (fun a b => isoTimeKey b.modified_at ≤ isoTimeKey a.modified_at)) ∧
    (∀ (cfg : FsConfig) (fs : Fs) (pattern sp : String) (l : List FileInfo),
      fsGlobInfo cfg fs pattern sp = .ok l →
      l.Pairwise (fun a b => strLe a.path b.path = true)) :=
  ⟨fun files pattern path hnd => stateGlobInfo_sorted files pattern path hnd,
   fun st pattern path => storeGlobInfo_sorted st pattern path,
   fun cfg fs pattern sp l h => fsGlobInfo_sorted cfg fs pattern sp l h⟩

/-- C6 witness: the ordering theorem applied at concrete states of each
backend. -/
theorem c6_witness :
    ((stateGlobInfo [("/a", ⟨["x"], "t1", "t1"⟩), ("/b", ⟨["y"], "t9", "t9"⟩)] "*" "/").Pairwise
      (fun a b => strLe b.modified_at a.modified_at = true)) ∧
    ((storeGlobInfo ⟨"/ns", [("/ns/a", ⟨"x", "t1", "t1"⟩)], [], ["/ns"]⟩ "/*" "/").Pairwise
      (fun a b => isoTimeKey b.modified_at ≤ isoTimeKey a.modified_at)) ∧
    (([⟨"/a.txt", false, 1, "2020-01-01T00:00:00.000Z"⟩,
        ⟨"/z.txt", false, 1, "2021-01-01T00:00:00.000Z"⟩] : List FileInfo).Pairwise
      (fun a b => strLe a.path b.path = true)) :=
  ⟨c6_glob_ordering.1 [("/a", ⟨["x"], "t1", "t1"⟩), ("/b", ⟨["y"], "t9", "t9"⟩)] "*" "/"
      (by decide),
   c6_glob_ordering.2.1 ⟨"/ns", [("/ns/a", ⟨"x", "t1", "t1"⟩)], [], ["/ns"]⟩ "/*" "/",
   c6_glob_ordering.2.2 ⟨"/r", true, 10485760⟩
      ⟨[("/r/a.txt", ⟨"x", "2020-01-01T00:00:00.000Z"⟩),
        ("/r/z.txt", ⟨"y", "2021-01-01T00:00:00.000Z"⟩)], ["/r"]⟩ "*" "/"
      [⟨"/a.txt", false, 1, "2020-01-01T00:00:00.000Z"⟩,
        ⟨"/z.txt", false, 1, "2021-01-01T00:00:00.000Z"⟩] (by decide)⟩

/-- C7: a syntactically invalid regex pattern (such as the bracket-opened
example) makes content search return an error string — never an empty match
list — on the in-memory, disk and persistent backends, and the composite
router returns the child's error string itself on every dispatch path rather
than any aggregated list. -/
theorem c7_invalid_regex_errors :
    (jsRegexCheck "[invalid" = some (regexErrMsg "[invalid")) ∧
    (∀ (files : Files) (path glob : Option String) (pattern m : String),
      jsRegexCheck pattern = some m →
      stateGrepRaw files pattern path glob = .error ("Invalid regex pattern: " ++ m)) ∧
    (∀ (cfg : FsConfig) (fs : Fs) (searchPath glob : Option String) (pattern m : String),
      jsRegexCheck pattern = some m →
      fsGrepRaw cfg fs pattern searchPath glob = .error ("Invalid regex pattern: " ++ m)) ∧
    (∀ (st : StoreState) (searchPath glob : Option String) (pattern m : String),
      jsRegexCheck pattern = some m →
      storeGrepRaw st pattern searchPath glob =
        .error ("Error: Invalid regex pattern: " ++ pattern)) ∧
    (∀ (cs : CompositeState) (path glob : Option String) (pattern m : String),
      jsRegexCheck pattern = some m →
      compositeGrepRaw cs pattern path glob = .error ("Invalid regex pattern: " ++ m)) := by
  have hs : ∀ (files : Files) (path glob : Option String) (pattern m : String),
      jsRegexCheck pattern = some m →
      stateGrepRaw files pattern path glob = .error ("Invalid regex pattern: " ++ m) := by
    intro files path glob pattern m h
    simp [stateGrepRaw, grepMatchesFromFiles, h]
  refine ⟨by decide, hs, ?_, ?_, ?_⟩
  · intro cfg fs searchPath glob pattern m h
    simp [fsGrepRaw, h]
  · intro st searchPath glob pattern m h
    simp [storeGrepRaw, h]
  · intro cs path glob pattern m h
    cases path with
    | none => simp [compositeGrepRaw, hs _ _ _ _ _ h]
    | some p =>
      by_cases hp : p = ""
      · simp [compositeGrepRaw, hp, hs _ _ _ _ _ h]
      · cases hm : findCleanMatch (sortedRoutes cs) p with
        | none => simp [compositeGrepRaw, hp, hm, hs _ _ _ _ _ h]
        | some pi =>
          obtain ⟨pfx, i⟩ := pi
          simp [compositeGrepRaw, hp, hm, hs _ _ _ _ _ h]

/-- C7 witness: the error-propagation theorem applied to each backend at the
bracket-opened invalid pattern. -/
theorem c7_witness :
    (stateGrepRaw [("/a", ⟨["x"], "t", "t"⟩)] "[invalid" none none =
      .error ("Invalid regex pattern: " ++ regexErrMsg "[invalid")) ∧
    (fsGrepRaw ⟨"/r", true, 10⟩ ⟨[], []⟩ "[invalid" none none =
      .error ("Invalid regex pattern: " ++ regexErrMsg "[invalid")) ∧
    (storeGrepRaw ⟨"/ns", [], [], []⟩ "[invalid" none none =
      .error ("Error: Invalid regex pattern: " ++ "[invalid")) ∧
    (compositeGrepRaw ⟨[], [("/mem/", [("/f", ⟨["x"], "t", "t"⟩)])]⟩ "[invalid"
        (some "/docs/") none =
      .error ("Invalid regex pattern: " ++ regexErrMsg "[invalid")) :=
  ⟨c7_invalid_regex_errors.2.1 [("/a", ⟨["x"], "t", "t"⟩)] none none "[invalid"
      (regexErrMsg "[invalid") (by decide),
   c7_invalid_regex_errors.2.2.1 ⟨"/r", true, 10⟩ ⟨[], []⟩ none none "[invalid"
      (regexErrMsg "[invalid") (by decide),
   c7_invalid_regex_errors.2.2.2.1 ⟨"/ns", [], [], []⟩ none none "[invalid"
      (regexErrMsg "[invalid") (by decide),
   c7_invalid_regex_errors.2.2.2.2 ⟨[], [("/mem/", [("/f", ⟨["x"], "t", "t"⟩)])]⟩
      (some "/docs/") none "[invalid" (regexErrMsg "[invalid") (by decide)⟩

theorem stateGrepRaw_ok_of_valid (files : Files) (pattern : String)
    (path glob : Option String) (hv : jsRegexCheck pattern = none) :
    ∃ ms, stateGrepRaw files pattern path glob = .ok ms := by
  unfold stateGrepRaw grepMatchesFromFiles
  rw [hv]
  cases hp : validatePath path with
  | error e => exact ⟨[], rfl⟩
  | ok normalizedPath => exact ⟨_, rfl⟩

theorem grepRoutesGo_ok (pattern : String) (glob : Option String)
    (hv : jsRegexCheck pattern = none) :
    ∀ (routes : List (String × Files)) (acc : List GrepMatch),
      grepRoutesGo pattern glob routes acc =
        .ok (acc ++ (routes.map fun e =>
          match stateGrepRaw e.2 pattern (some "/") glob with
          | .ok ms => ms.map fun m => { m with path := stripTrailingSlash e.1 ++ m.path }
          | .error _ => ([] : List GrepMatch)).flatten) := by
  intro routes
  induction routes with
  | nil => intro acc; simp [grepRoutesGo]
  | cons r rest ih =>
    intro acc
    obtain ⟨ms, hms⟩ := stateGrepRaw_ok_of_valid r.2 pattern (some "/") glob hv
    simp [grepRoutesGo, hms, ih, List.append_assoc]

/-- C9 counterexample: with one registered route and a search path that no
route owns, the claim says the search is forwarded to the default backend
alone; but the router aggregates, and a match stored only in the routed
child appears in the result, so the routed child was consulted. -/
theorem c9_counterexample :
    (compositeGrepRaw ⟨[], [("/mem/", [("/f.txt", ⟨["alpha"], "t0", "t0"⟩)])]⟩ "alpha"
      (some "/docs/") none = .ok [⟨"/mem/f.txt", 1, "alpha"⟩]) ∧
    (stateGrepRaw ([] : Files) "alpha" (some "/docs/") none = .ok []) ∧
    (([⟨"/mem/f.txt", 1, "alpha"⟩] : List GrepMatch) ≠ []) ∧
    (compositeGlobInfo ⟨[], [("/mem/", [("/f.txt", ⟨["alpha"], "t0", "t0"⟩)])]⟩ "*"
      "/docs/" = [⟨"/mem/f.txt", false, 5, "t0"⟩]) := by
  decide

/-- C9 amended: for a path not prefixed by any registered route, read, write
and edit are forwarded unmodified to the default backend alone (writes and
edits leave every routed child untouched). List and search match routes on
the route path minus its trailing slash: an unrouted path that still matches
such a clean prefix (slash-mem under route slash-mem-slash) is dispatched to
that routed child alone — the default backend is not consulted even when it
holds matching entries (closed conjuncts below); only a non-root path
matching no clean prefix is listed by the default child alone, and content
and name search on such a path aggregate the default backend's results with
every routed child's root results, re-prefixed. -/
theorem c9_unrouted_paths :
    (∀ (cs : CompositeState) (p : String) (offset limit : Nat),
      (∀ e ∈ sortedRoutes cs, strStartsWith p e.1 = false) →
      compositeRead cs p offset limit = stateRead cs.defaultFiles p offset limit) ∧
    (∀ (now : String) (cs : CompositeState) (p c : String),
      (∀ e ∈ sortedRoutes cs, strStartsWith p e.1 = false) →
      compositeWrite now cs p c =
        ((stateWrite now cs.defaultFiles p c).1,
          ⟨(stateWrite now cs.defaultFiles p c).2, cs.routes⟩)) ∧
    (∀ (now : String) (cs : CompositeState) (p o n : String) (ra : Bool),
      (∀ e ∈ sortedRoutes cs, strStartsWith p e.1 = false) →
      compositeEdit now cs p o n ra =
        ((stateEdit now cs.defaultFiles p o n ra).1,
          ⟨(stateEdit now cs.defaultFiles p o n ra).2, cs.routes⟩)) ∧
    (∀ (cs : CompositeState) (p : String),
      p ≠ "/" →
      (∀ e ∈ sortedRoutes cs, strStartsWith p (stripTrailingSlash e.1) = false) →
      compositeLsInfo cs p = stateLsInfo cs.defaultFiles p) ∧
    (∀ (cs : CompositeState) (p : String) (pattern : String) (glob : Option String),
      p ≠ "" →
      jsRegexCheck pattern = none →
      (∀ e ∈ sortedRoutes cs, strStartsWith p (stripTrailingSlash e.1) = false) →
      ∃ ds, stateGrepRaw cs.defaultFiles pattern (some p) glob = .ok ds ∧
        compositeGrepRaw cs pattern (some p) glob =
          .ok (ds ++ (cs.routes.map fun e =>
            match stateGrepRaw e.2 pattern (some "/") glob with
            | .ok ms => ms.map fun m => { m with path := stripTrailingSlash e.1 ++ m.path }
            | .error _ => ([] : List GrepMatch)).flatten)) ∧
    (∀ (cs : CompositeState) (p : String) (pattern : String),
      (∀ e ∈ sortedRoutes cs, strStartsWith p (stripTrailingSlash e.1) = false) →
      compositeGlobInfo cs pattern p =
        insSort (fun a b => strLe a.path b.path)
          (stateGlobInfo cs.defaultFiles pattern p ++
            (cs.routes.map fun e =>
              (stateGlobInfo e.2 pattern "/").map fun fi =>
                { fi with path := stripTrailingSlash e.1 ++ fi.path }).flatten)) ∧
    (compositeLsInfo ⟨[("/mem/d.txt", ⟨["ss"], "t0", "t0"⟩)],
        [("/mem/", [("/s.txt", ⟨["ss"], "t0", "t0"⟩)])]⟩ "/mem" =
      [⟨"/mem/s.txt", false, 2, "t0"⟩]) ∧
    (stateLsInfo [("/mem/d.txt", ⟨["ss"], "t0", "t0"⟩)] "/mem" =
      [⟨"/mem/d.txt", false, 2, "t0"⟩]) ∧
    (compositeGrepRaw ⟨[("/mem/d.txt", ⟨["ss"], "t0", "t0"⟩)],
        [("/mem/", [("/s.txt", ⟨["ss"], "t0", "t0"⟩)])]⟩ "ss" (some "/mem") none =
      .ok [⟨"/mem/s.txt", 1, "ss"⟩]) ∧
    (stateGrepRaw [("/mem/d.txt", ⟨["ss"], "t0", "t0"⟩)] "ss" (some "/mem") none =
      .ok [⟨"/mem/d.txt", 1, "ss"⟩]) := by
  refine ⟨?_, ?_, ?_, ?_, ?_, ?_, by decide, by decide, by decide, by decide⟩
  · intro cs p offset limit hno
    simp [compositeRead, getBackendAndKey, findFullMatch_eq_none (sortedRoutes cs) p hno]
  · intro now cs p c hno
    simp [compositeWrite, getBackendAndKey, findFullMatch_eq_none (sortedRoutes cs) p hno]
  · intro now cs p o n ra hno
    simp [compositeEdit, getBackendAndKey, findFullMatch_eq_none (sortedRoutes cs) p hno]
  · intro cs p hroot hnc
    simp [compositeLsInfo, findCleanMatch_eq_none (sortedRoutes cs) p hnc, hroot]
  · intro cs p pattern glob hp hv hnc
    obtain ⟨ds, hds⟩ := stateGrepRaw_ok_of_valid cs.defaultFiles pattern (some p) glob hv
    refine ⟨ds, hds, ?_⟩
    simp only [compositeGrepRaw, hp, hds, grepRoutesGo_ok pattern glob hv cs.routes ds]
    simp only [if_false]
    rw [findCleanMatch_eq_none (sortedRoutes cs) p hnc]
  · intro cs p pattern hnc
    simp [compositeGlobInfo, findCleanMatch_eq_none (sortedRoutes cs) p hnc]

/-- C9 witness: the amended theorem applied at a one-route configuration and
an unrouted path. -/
theorem c9_witness :
    (compositeRead ⟨[("/d.txt", ⟨["dd"], "t0", "t0"⟩)], [("/mem/", [])]⟩ "/d.txt" 0 5 =
      stateRead [("/d.txt", ⟨["dd"], "t0", "t0"⟩)] "/d.txt" 0 5) ∧
    ((compositeWrite "t1" ⟨[], [("/mem/", [])]⟩ "/docs/y" "c").2.routes =
      [("/mem/", [])]) ∧
    (compositeLsInfo ⟨[("/d.txt", ⟨["dd"], "t0", "t0"⟩)], [("/mem/", [])]⟩ "/docs" =
      stateLsInfo [("/d.txt", ⟨["dd"], "t0", "t0"⟩)] "/docs") ∧
    (∃ ds, stateGrepRaw ([] : Files) "alpha" (some "/docs/") none = .ok ds ∧
      compositeGrepRaw ⟨[], [("/mem/", [("/f.txt", ⟨["alpha"], "t0", "t0"⟩)])]⟩ "alpha"
          (some "/docs/") none =
        .ok (ds ++ ([("/mem/", [("/f.txt", ⟨["alpha"], "t0", "t0"⟩)])].map fun e =>
          match stateGrepRaw e.2 "alpha" (some "/") none with
          | .ok ms => ms.map fun m => { m with path := stripTrailingSlash e.1 ++ m.path }
          | .error _ => ([] : List GrepMatch)).flatten)) := by
  refine ⟨?_, ?_, ?_, ?_⟩
  · exact c9_unrouted_paths.1 ⟨[("/d.txt", ⟨["dd"], "t0", "t0"⟩)], [("/mem/", [])]⟩
      "/d.txt" 0 5 (by decide)
  · rw [c9_unrouted_paths.2.1 "t1" ⟨[], [("/mem/", [])]⟩ "/docs/y" "c" (by decide)]
  · exact c9_unrouted_paths.2.2.2.1 ⟨[("/d.txt", ⟨["dd"], "t0", "t0"⟩)], [("/mem/", [])]⟩
      "/docs" (by decide) (by decide)
  · exact c9_unrouted_paths.2.2.2.2.1
      ⟨[], [("/mem/", [("/f.txt", ⟨["alpha"], "t0", "t0"⟩)])]⟩ "/docs/" "alpha" none
      (by decide) (by decide) (by decide)

/-- C10 counterexample: with the single route of path slash-mem-slash, the
path slash-memx is owned by the default backend for read (getBackendAndKey
finds no route and the default's file is served), yet list dispatches it to
the routed child (the clean-prefix loop matches slash-mem), whose entry comes
back re-prefixed — two operations on the same path served by different
backends, refuting the single-owner claim. -/
theorem c10_counterexample :
    ((getBackendAndKey ⟨[("/memx", ⟨["root-owned"], "t0", "t0"⟩)],
        [("/mem/", [("/sub.txt", ⟨["s"], "t0", "t0"⟩)])]⟩ "/memx").1 = none) ∧
    (findCleanMatch (sortedRoutes ⟨[("/memx", ⟨["root-owned"], "t0", "t0"⟩)],
        [("/mem/", [("/sub.txt", ⟨["s"], "t0", "t0"⟩)])]⟩) "/memx" = some ("/mem/", 0)) ∧
    (compositeRead ⟨[("/memx", ⟨["root-owned"], "t0", "t0"⟩)],
        [("/mem/", [("/sub.txt", ⟨["s"], "t0", "t0"⟩)])]⟩ "/memx" 0 2000 =
      "     1\troot-owned") ∧
    (compositeLsInfo ⟨[("/memx", ⟨["root-owned"], "t0", "t0"⟩)],
        [("/mem/", [("/sub.txt", ⟨["s"], "t0", "t0"⟩)])]⟩ "/memx" =
      [⟨"/mem/sub.txt", false, 1, "t0"⟩]) := by
  decide

/-- C10 amended: read, write and edit share one owner per path — the
getBackendAndKey dispatch — and a write or edit touches only that owner:
with a routed owner the default child and every other route are untouched,
and with the default owner the route table is untouched. The listing and
search operations match routes on the prefix without its trailing slash;
whenever every such clean-prefix match is also a full-prefix match (all
ordinary paths), their route choice coincides with getBackendAndKey's. -/
theorem c10_owner_consistency :
    (∀ (now : String) (cs : CompositeState) (p c : String) (i : Nat),
      (getBackendAndKey cs p).1 = some i →
      (compositeWrite now cs p c).2.defaultFiles = cs.defaultFiles ∧
      ∀ j, j ≠ i → (compositeWrite now cs p c).2.routes.get? j = cs.routes.get? j) ∧
    (∀ (now : String) (cs : CompositeState) (p c : String),
      (getBackendAndKey cs p).1 = none →
      (compositeWrite now cs p c).2.routes = cs.routes) ∧
    (∀ (now : String) (cs : CompositeState) (p o n : String) (ra : Bool) (i : Nat),
      (getBackendAndKey cs p).1 = some i →
      (compositeEdit now cs p o n ra).2.defaultFiles = cs.defaultFiles ∧
      ∀ j, j ≠ i → (compositeEdit now cs p o n ra).2.routes.get? j = cs.routes.get? j) ∧
    (∀ (now : String) (cs : CompositeState) (p o n : String) (ra : Bool),
      (getBackendAndKey cs p).1 = none →
      (compositeEdit now cs p o n ra).2.routes = cs.routes) ∧
    (∀ (cs : CompositeState) (p : String),
      (∀ e ∈ sortedRoutes cs, strStartsWith p (stripTrailingSlash e.1) = true →
        strStartsWith p e.1 = true) →
      findCleanMatch (sortedRoutes cs) p = findFullMatch (sortedRoutes cs) p) := by
  refine ⟨?_, ?_, ?_, ?_, ?_⟩
  · intro now cs p c i h
    cases hm : findFullMatch (sortedRoutes cs) p with
    | none => simp [getBackendAndKey, hm] at h
    | some pi =>
      obtain ⟨pfx, i'⟩ := pi
      simp only [getBackendAndKey, hm] at h
      cases h
      simp only [compositeWrite, getBackendAndKey, hm]
      refine ⟨rfl, ?_⟩
      intro j hj
      exact get?_setRouteGo_ne _ cs.routes _ j hj
  · intro now cs p c h
    cases hm : findFullMatch (sortedRoutes cs) p with
    | none => simp [compositeWrite, getBackendAndKey, hm]
    | some pi =>
      obtain ⟨pfx, i'⟩ := pi
      simp [getBackendAndKey, hm] at h
  · intro now cs p o n ra i h
    cases hm : findFullMatch (sortedRoutes cs) p with
    | none => simp [getBackendAndKey, hm] at h
    | some pi =>
      obtain ⟨pfx, i'⟩ := pi
      simp only [getBackendAndKey, hm] at h
      cases h
      simp only [compositeEdit, getBackendAndKey, hm]
      refine ⟨rfl, ?_⟩
      intro j hj
      exact get?_setRouteGo_ne _ cs.routes _ j hj
  · intro now cs p o n ra h
    cases hm : findFullMatch (sortedRoutes cs) p with
    | none => simp [compositeEdit, getBackendAndKey, hm]
    | some pi =>
      obtain ⟨pfx, i'⟩ := pi
      simp [getBackendAndKey, hm] at h
  · intro cs p H
    exact findCleanMatch_eq_findFullMatch (sortedRoutes cs) p H

/-- C10 witness: the owner-consistency theorem applied at the one-route
configuration, at a routed path and at an ordinary path. -/
theorem c10_witness :
    ((compositeWrite "t" ⟨[], [("/mem/", [])]⟩ "/mem/a" "c").2.defaultFiles = []) ∧
    ((compositeWrite "t" ⟨[], [("/mem/", [])]⟩ "/mem/a" "c").2.routes.get? 1 =
      (([("/mem/", [])] : List (String × Files)).get? 1)) ∧
    ((compositeWrite "t" ⟨[("/x", ⟨["v"], "t0", "t0"⟩)], [("/mem/", [])]⟩ "/y" "c").2.routes =
      [("/mem/", [])]) ∧
    (findCleanMatch (sortedRoutes ⟨[], [("/mem/", [])]⟩) "/mem/a" =
      findFullMatch (sortedRoutes ⟨[], [("/mem/", [])]⟩) "/mem/a") := by
  refine ⟨?_, ?_, ?_, ?_⟩
  · exact (c10_owner_consistency.1 "t" ⟨[], [("/mem/", [])]⟩ "/mem/a" "c" 0 (by decide)).1
  · exact (c10_owner_consistency.1 "t" ⟨[], [("/mem/", [])]⟩ "/mem/a" "c" 0 (by decide)).2
      1 (by decide)
  · exact c10_owner_consistency.2.1 "t" ⟨[("/x", ⟨["v"], "t0", "t0"⟩)], [("/mem/", [])]⟩
      "/y" "c" (by decide)
  · exact c10_owner_consistency.2.2.2.2 ⟨[], [("/mem/", [])]⟩ "/mem/a" (by decide)

end DA
